import Mathlib

/-!
Verification development for the tensor-block library in `common.py` of the
yolov5-improved-bdam repository.  Tensors are modelled by their logical
row-major contents: a shape (list of dimension sizes) together with a flat
data function.  `view`/`contiguous` keep the flat data, `permute` reindexes
it, exactly matching PyTorch semantics on the (contiguous-compatible) uses
appearing in the source.  Element values are exact rationals; the learned
weights are arbitrary parameters, sigmoid is an arbitrary scalar function
parameter (its numeric value is irrelevant to every claim below), and
eval-mode batch normalization is the per-channel affine map its running
statistics fold into.
-/

set_option autoImplicit false

namespace Common

/-- Python `int()` truncation toward zero, on an exact rational. -/
def pyInt (q : ℚ) : ℤ := if q < 0 then ⌈q⌉ else ⌊q⌋

/-- `int()` truncation followed by clamping to ℕ (all uses are nonnegative). -/
def pyIntNat (q : ℚ) : ℕ := (pyInt q).toNat

/-- Row-major flat index of multi-index `is` in a tensor of shape `s`. -/
def encIdx : List ℕ → List ℕ → ℕ
  | _ :: ds, i :: is => i * ds.prod + encIdx ds is
  | _, _ => 0

/-- Row-major multi-index of flat index `f` in shape `s`. -/
def decIdx : List ℕ → ℕ → List ℕ
  | [], _ => []
  | d :: ds, f => (f / ds.prod) % d :: decIdx ds (f % ds.prod)

theorem encIdx_lt {is s : List ℕ} (h : List.Forall₂ (· < ·) is s) :
    encIdx s is < s.prod := by
  induction h with
  | nil => simp [encIdx]
  | @cons a b l₁ l₂ h₁ h₂ ih =>
    simp only [encIdx, List.prod_cons]
    have hP : 0 < l₂.prod := lt_of_le_of_lt (Nat.zero_le _) ih
    calc a * l₂.prod + encIdx l₂ l₁ < a * l₂.prod + l₂.prod := by omega
      _ = (a + 1) * l₂.prod := by ring
      _ ≤ b * l₂.prod := Nat.mul_le_mul_right _ (by omega)

theorem decIdx_encIdx {is s : List ℕ} (h : List.Forall₂ (· < ·) is s) :
    decIdx s (encIdx s is) = is := by
  induction h with
  | nil => rfl
  | @cons a b l₁ l₂ h₁ h₂ ih =>
    simp only [encIdx, decIdx]
    have hE : encIdx l₂ l₁ < l₂.prod := encIdx_lt h₂
    have hP : 0 < l₂.prod := lt_of_le_of_lt (Nat.zero_le _) hE
    have h1 : (a * l₂.prod + encIdx l₂ l₁) / l₂.prod = a := by
      rw [add_comm, Nat.add_mul_div_right _ _ hP, Nat.div_eq_of_lt hE, zero_add]
    have h2 : (a * l₂.prod + encIdx l₂ l₁) % l₂.prod = encIdx l₂ l₁ := by
      rw [add_comm, Nat.add_mul_mod_self_right]
      exact Nat.mod_eq_of_lt hE
    rw [h1, h2, Nat.mod_eq_of_lt h₁, ih]

theorem encIdx_decIdx : ∀ (s : List ℕ) (f : ℕ), f < s.prod → encIdx s (decIdx s f) = f := by
  intro s
  induction s with
  | nil =>
    intro f hf
    simp only [List.prod_nil] at hf
    interval_cases f
    rfl
  | cons d ds ih =>
    intro f hf
    simp only [decIdx, encIdx]
    rw [List.prod_cons] at hf
    have hP : 0 < ds.prod := by
      rcases Nat.eq_zero_or_pos ds.prod with h | h
      · rw [h, mul_zero] at hf; omega
      · exact h
    have hfd : f / ds.prod < d := (Nat.div_lt_iff_lt_mul hP).mpr (by omega)
    rw [Nat.mod_eq_of_lt hfd, ih _ (Nat.mod_lt _ hP), mul_comm]
    exact Nat.div_add_mod f ds.prod

theorem decIdx_forall_lt : ∀ (s : List ℕ), (∀ d ∈ s, 0 < d) → ∀ f : ℕ,
    List.Forall₂ (· < ·) (decIdx s f) s := by
  intro s
  induction s with
  | nil => intro _ _; exact List.Forall₂.nil
  | cons d ds ih =>
    intro h f
    exact List.Forall₂.cons (Nat.mod_lt _ (h d (by simp)))
      (ih (fun x hx => h x (by simp [hx])) _)

theorem forall2_four {i j k l a b c d : ℕ}
    (hi : i < a) (hj : j < b) (hk : k < c) (hl : l < d) :
    List.Forall₂ (· < ·) [i, j, k, l] [a, b, c, d] := by
  exact .cons hi (.cons hj (.cons hk (.cons hl .nil)))

theorem forall2_six {i1 i2 i3 i4 i5 i6 a1 a2 a3 a4 a5 a6 : ℕ}
    (h1 : i1 < a1) (h2 : i2 < a2) (h3 : i3 < a3)
    (h4 : i4 < a4) (h5 : i5 < a5) (h6 : i6 < a6) :
    List.Forall₂ (· < ·) [i1, i2, i3, i4, i5, i6] [a1, a2, a3, a4, a5, a6] := by
  exact .cons h1 (.cons h2 (.cons h3 (.cons h4 (.cons h5 (.cons h6 .nil)))))

theorem dec_enc4 (a b c d i j k l : ℕ)
    (hi : i < a) (hj : j < b) (hk : k < c) (hl : l < d) :
    decIdx [a, b, c, d] (encIdx [a, b, c, d] [i, j, k, l]) = [i, j, k, l] :=
  decIdx_encIdx (forall2_four hi hj hk hl)

theorem dec_enc6 (a1 a2 a3 a4 a5 a6 i1 i2 i3 i4 i5 i6 : ℕ)
    (h1 : i1 < a1) (h2 : i2 < a2) (h3 : i3 < a3)
    (h4 : i4 < a4) (h5 : i5 < a5) (h6 : i6 < a6) :
    decIdx [a1, a2, a3, a4, a5, a6] (encIdx [a1, a2, a3, a4, a5, a6] [i1, i2, i3, i4, i5, i6])
      = [i1, i2, i3, i4, i5, i6] :=
  decIdx_encIdx (forall2_six h1 h2 h3 h4 h5 h6)

theorem mul_add_lt {a A b B : ℕ} (ha : a < A) (hb : b < B) : a * B + b < A * B := by
  calc a * B + b < a * B + B := by omega
    _ = (a + 1) * B := by ring
    _ ≤ A * B := Nat.mul_le_mul_right _ (by omega)

/-- A tensor: its shape and its logical row-major contents.  Only flat
indices below the shape product are meaningful. -/
structure Tensor where
  shape : List ℕ
  data : ℕ → ℚ

namespace Tensor

/-- `torch.Tensor.numel`. -/
def numel (x : Tensor) : ℕ := x.shape.prod

/-- Size of axis `i` (`x.shape[i]`). -/
def dim (x : Tensor) (i : ℕ) : ℕ := x.shape.getD i 0

/-- `torch.Tensor.view` with all sizes given: same flat contents, new shape. -/
def view (x : Tensor) (s : List ℕ) : Tensor := ⟨s, x.data⟩

/-- `view(-1, s...)`: the leading size is inferred from the element count. -/
def viewNegFirst (x : Tensor) (s : List ℕ) : Tensor :=
  ⟨x.numel / s.prod :: s, x.data⟩

/-- `view(s..., -1)`: the trailing size is inferred from the element count. -/
def viewNegLast (x : Tensor) (s : List ℕ) : Tensor :=
  ⟨s ++ [x.numel / s.prod], x.data⟩

/-- `torch.Tensor.contiguous`: logical contents are unchanged. -/
def contiguous (x : Tensor) : Tensor := x

/-- `torch.Tensor.permute p`: axis `i` of the result is axis `p[i]` of `x`. -/
def permute (x : Tensor) (p : List ℕ) : Tensor :=
  ⟨p.map (fun i => x.shape.getD i 0),
   fun f => x.data (encIdx x.shape
     ((List.range x.shape.length).map
       (fun j => (decIdx (p.map (fun i => x.shape.getD i 0)) f).getD (p.indexOf j) 0)))⟩

end Tensor

/-- Build a 4-axis tensor from an element function. -/
def mk4 (n c h w : ℕ) (f : ℕ → ℕ → ℕ → ℕ → ℚ) : Tensor :=
  ⟨[n, c, h, w], fun i =>
    match decIdx [n, c, h, w] i with
    | [a, b, r, s] => f a b r s
    | _ => 0⟩

/-- Element of a 4-axis tensor at multi-index `(a, b, r, s)`. -/
def Tensor.at4 (x : Tensor) (a b r s : ℕ) : ℚ :=
  x.data (encIdx x.shape [a, b, r, s])

theorem mk4_shape (n c h w : ℕ) (f : ℕ → ℕ → ℕ → ℕ → ℚ) :
    (mk4 n c h w f).shape = [n, c, h, w] := rfl

theorem mk4_at4 (n c h w : ℕ) (f : ℕ → ℕ → ℕ → ℕ → ℚ)
    {a b r s : ℕ} (ha : a < n) (hb : b < c) (hr : r < h) (hs : s < w) :
    (mk4 n c h w f).at4 a b r s = f a b r s := by
  unfold mk4 Tensor.at4
  simp only [dec_enc4 n c h w a b r s ha hb hr hs]

/-- Exact equality of tensors: same shape and same elements. -/
def Teq (x y : Tensor) : Prop :=
  x.shape = y.shape ∧ ∀ f : ℕ, f < x.numel → x.data f = y.data f

instance (x y : Tensor) : Decidable (Teq x y) := by
  unfold Teq
  infer_instance

theorem permute_0231_shape (x : Tensor) {a b c d : ℕ} (h : x.shape = [a, b, c, d]) :
    (x.permute [0, 2, 3, 1]).shape = [a, c, d, b] := by
  simp [Tensor.permute, h]

theorem permute_0231_data (x : Tensor) {a b c d : ℕ} (h : x.shape = [a, b, c, d])
    {i j k l : ℕ} (hi : i < a) (hj : j < c) (hk : k < d) (hl : l < b) :
    (x.permute [0, 2, 3, 1]).data (encIdx [a, c, d, b] [i, j, k, l])
      = x.data (encIdx [a, b, c, d] [i, l, j, k]) := by
  obtain ⟨sh, g⟩ := x
  have h' : sh = [a, b, c, d] := h
  subst h'
  show g (encIdx [a, b, c, d]
      [(decIdx [a, c, d, b] (encIdx [a, c, d, b] [i, j, k, l])).getD 0 0,
       (decIdx [a, c, d, b] (encIdx [a, c, d, b] [i, j, k, l])).getD 3 0,
       (decIdx [a, c, d, b] (encIdx [a, c, d, b] [i, j, k, l])).getD 1 0,
       (decIdx [a, c, d, b] (encIdx [a, c, d, b] [i, j, k, l])).getD 2 0])
    = g (encIdx [a, b, c, d] [i, l, j, k])
  rw [dec_enc4 a c d b i j k l hi hj hk hl]
  rfl

theorem permute_0312_shape (x : Tensor) {a b c d : ℕ} (h : x.shape = [a, b, c, d]) :
    (x.permute [0, 3, 1, 2]).shape = [a, d, b, c] := by
  simp [Tensor.permute, h]

theorem permute_0312_data (x : Tensor) {a b c d : ℕ} (h : x.shape = [a, b, c, d])
    {i j k l : ℕ} (hi : i < a) (hj : j < d) (hk : k < b) (hl : l < c) :
    (x.permute [0, 3, 1, 2]).data (encIdx [a, d, b, c] [i, j, k, l])
      = x.data (encIdx [a, b, c, d] [i, k, l, j]) := by
  obtain ⟨sh, g⟩ := x
  have h' : sh = [a, b, c, d] := h
  subst h'
  show g (encIdx [a, b, c, d]
      [(decIdx [a, d, b, c] (encIdx [a, d, b, c] [i, j, k, l])).getD 0 0,
       (decIdx [a, d, b, c] (encIdx [a, d, b, c] [i, j, k, l])).getD 2 0,
       (decIdx [a, d, b, c] (encIdx [a, d, b, c] [i, j, k, l])).getD 3 0,
       (decIdx [a, d, b, c] (encIdx [a, d, b, c] [i, j, k, l])).getD 1 0])
    = g (encIdx [a, b, c, d] [i, k, l, j])
  rw [dec_enc4 a d b c i j k l hi hj hk hl]
  rfl

theorem permute_013245_shape (x : Tensor) {a1 a2 a3 a4 a5 a6 : ℕ}
    (h : x.shape = [a1, a2, a3, a4, a5, a6]) :
    (x.permute [0, 1, 3, 2, 4, 5]).shape = [a1, a2, a4, a3, a5, a6] := by
  simp [Tensor.permute, h]

theorem permute_013245_data (x : Tensor) {a1 a2 a3 a4 a5 a6 : ℕ}
    (h : x.shape = [a1, a2, a3, a4, a5, a6])
    {i1 i2 i3 i4 i5 i6 : ℕ} (h1 : i1 < a1) (h2 : i2 < a2) (h3 : i3 < a4)
    (h4 : i4 < a3) (h5 : i5 < a5) (h6 : i6 < a6) :
    (x.permute [0, 1, 3, 2, 4, 5]).data
        (encIdx [a1, a2, a4, a3, a5, a6] [i1, i2, i3, i4, i5, i6])
      = x.data (encIdx [a1, a2, a3, a4, a5, a6] [i1, i2, i4, i3, i5, i6]) := by
  obtain ⟨sh, g⟩ := x
  have h' : sh = [a1, a2, a3, a4, a5, a6] := h
  subst h'
  show g (encIdx [a1, a2, a3, a4, a5, a6]
      [(decIdx [a1, a2, a4, a3, a5, a6]
          (encIdx [a1, a2, a4, a3, a5, a6] [i1, i2, i3, i4, i5, i6])).getD 0 0,
       (decIdx [a1, a2, a4, a3, a5, a6]
          (encIdx [a1, a2, a4, a3, a5, a6] [i1, i2, i3, i4, i5, i6])).getD 1 0,
       (decIdx [a1, a2, a4, a3, a5, a6]
          (encIdx [a1, a2, a4, a3, a5, a6] [i1, i2, i3, i4, i5, i6])).getD 3 0,
       (decIdx [a1, a2, a4, a3, a5, a6]
          (encIdx [a1, a2, a4, a3, a5, a6] [i1, i2, i3, i4, i5, i6])).getD 2 0,
       (decIdx [a1, a2, a4, a3, a5, a6]
          (encIdx [a1, a2, a4, a3, a5, a6] [i1, i2, i3, i4, i5, i6])).getD 4 0,
       (decIdx [a1, a2, a4, a3, a5, a6]
          (encIdx [a1, a2, a4, a3, a5, a6] [i1, i2, i3, i4, i5, i6])).getD 5 0])
    = g (encIdx [a1, a2, a3, a4, a5, a6] [i1, i2, i4, i3, i5, i6])
  rw [dec_enc6 a1 a2 a4 a3 a5 a6 i1 i2 i3 i4 i5 i6 h1 h2 h3 h4 h5 h6]
  rfl

end Common

namespace Common

/-- Elementwise addition (used only on equal-shape tensors, as in the source). -/
def Tensor.add (x y : Tensor) : Tensor :=
  ⟨x.shape, fun f => x.data f + y.data f⟩

/-- Pointwise application of a scalar function. -/
def Tensor.pmap (x : Tensor) (g : ℚ → ℚ) : Tensor :=
  ⟨x.shape, fun f => g (x.data f)⟩

/-- Index adjustment for PyTorch broadcasting over a size-1 axis. -/
def bidx (i d : ℕ) : ℕ := if d = 1 then 0 else i

/-- Elementwise product with PyTorch broadcasting on 4-axis tensors
(each axis pair either matches or one of the two sizes is 1). -/
def Tensor.bmul (x y : Tensor) : Tensor :=
  mk4 (max (x.dim 0) (y.dim 0)) (max (x.dim 1) (y.dim 1))
      (max (x.dim 2) (y.dim 2)) (max (x.dim 3) (y.dim 3))
    (fun a b r s =>
      x.at4 (bidx a (x.dim 0)) (bidx b (x.dim 1)) (bidx r (x.dim 2)) (bidx s (x.dim 3)) *
      y.at4 (bidx a (y.dim 0)) (bidx b (y.dim 1)) (bidx r (y.dim 2)) (bidx s (y.dim 3)))

/-- `torch.cat((x, y), dim=1)` on 4-axis tensors. -/
def cat2C (x y : Tensor) : Tensor :=
  mk4 (x.dim 0) (x.dim 1 + y.dim 1) (x.dim 2) (x.dim 3)
    (fun a b r s => if b < x.dim 1 then x.at4 a b r s else y.at4 a (b - x.dim 1) r s)

/-- `torch.cat(ts, dim=1)` on a (nonempty) list of 4-axis tensors. -/
def catListC : List Tensor → Tensor
  | [] => ⟨[], fun _ => 0⟩
  | t :: ts => ts.foldl cat2C t

/-- Batched matrix product `x @ y` on 4-axis tensors: contracts the last
axis of `x` with the second-to-last axis of `y`. -/
def Tensor.matmul4 (x y : Tensor) : Tensor :=
  mk4 (x.dim 0) (x.dim 1) (x.dim 2) (y.dim 3)
    (fun a b i j => (Finset.range (x.dim 3)).sum (fun r => x.at4 a b i r * y.at4 a b r j))

/-- `x.transpose(-2, -3)` on a 4-axis tensor: swaps axes 1 and 2. -/
def Tensor.transpose23 (x : Tensor) : Tensor :=
  mk4 (x.dim 0) (x.dim 2) (x.dim 1) (x.dim 3) (fun a b r s => x.at4 a r b s)

/-- `x.transpose(-1, -3)` on a 4-axis tensor: swaps axes 1 and 3. -/
def Tensor.transpose13 (x : Tensor) : Tensor :=
  mk4 (x.dim 0) (x.dim 3) (x.dim 2) (x.dim 1) (fun a b r s => x.at4 a s r b)

/-- Hardswish activation `x * relu6(x + 3) / 6` (`nn.Hardswish`), exact on ℚ. -/
def hardswish (q : ℚ) : ℚ := q * (min (max (q + 3) 0) 6) / 6

/-- `nn.ReLU`. -/
def relu (q : ℚ) : ℚ := max q 0

/-- `nn.LeakyReLU` with the given negative slope. -/
def leakyRelu (slope q : ℚ) : ℚ := if q < 0 then slope * q else q

/-- Output spatial size of a convolution/pooling axis:
`floor((in + 2·padding - kernel) / stride) + 1`. -/
def convOut (n p k s : ℕ) : ℕ := (n + 2 * p - k) / s + 1

/-- Padded element access: zero outside the spatial range (conv zero padding). -/
def Tensor.atPad4 (x : Tensor) (a b : ℕ) (i j : ℤ) : ℚ :=
  if 0 ≤ i ∧ i < (x.dim 2 : ℤ) ∧ 0 ≤ j ∧ j < (x.dim 3 : ℤ) then
    x.at4 a b i.toNat j.toNat
  else 0

/-- `nn.Conv2d`: hyperparameters plus learned weight (and optional bias). -/
structure Conv2d where
  inC : ℕ
  outC : ℕ
  kh : ℕ
  kw : ℕ
  sh : ℕ
  sw : ℕ
  ph : ℕ
  pw : ℕ
  groups : ℕ
  weight : ℕ → ℕ → ℕ → ℕ → ℚ
  bias : Option (ℕ → ℚ)

/-- Forward pass of `nn.Conv2d` (cross-correlation with zero padding,
grouped channels, optional bias). -/
def Conv2d.forward (m : Conv2d) (x : Tensor) : Tensor :=
  mk4 (x.dim 0) m.outC (convOut (x.dim 2) m.ph m.kh m.sh) (convOut (x.dim 3) m.pw m.kw m.sw)
    (fun a o i j =>
      let gsize := m.inC / m.groups
      let g := o / (m.outC / m.groups)
      (Finset.range gsize).sum (fun ic =>
        (Finset.range m.kh).sum (fun u =>
          (Finset.range m.kw).sum (fun v =>
            m.weight o ic u v *
              x.atPad4 a (g * gsize + ic)
                ((i * m.sh + u : ℤ) - m.ph) ((j * m.sw + v : ℤ) - m.pw))))
      + (match m.bias with | some bf => bf o | none => 0))

/-- `nn.BatchNorm2d` in evaluation mode: the per-channel affine map that its
learned parameters and running statistics fold into. -/
structure BatchNorm2d where
  features : ℕ
  scale : ℕ → ℚ
  shift : ℕ → ℚ

def BatchNorm2d.forward (m : BatchNorm2d) (x : Tensor) : Tensor :=
  mk4 (x.dim 0) (x.dim 1) (x.dim 2) (x.dim 3)
    (fun a b r s => m.scale b * x.at4 a b r s + m.shift b)

/-- A kernel-size argument: a plain int or a per-axis list (`autopad` branches
on exactly this distinction). -/
inductive KArg where
  | int (k : ℕ)
  | list (ks : List ℕ)

/-- `autopad(k, p)` from `common.py`: when `p is None`, `k // 2` for an int
kernel size and `[x // 2 for x in k]` otherwise. -/
def autopad (k : KArg) (p : Option KArg) : KArg :=
  match p with
  | some q => q
  | none =>
    match k with
    | .int n => .int (n / 2)
    | .list ks => .list (ks.map (fun v => v / 2))

/-- Interpret a `KArg` on the two spatial axes, as `nn.Conv2d` does. -/
def KArg.pair : KArg → ℕ × ℕ
  | .int n => (n, n)
  | .list ks => (ks.getD 0 0, ks.getD 1 0)

/-- Learned parameters of a `Conv` block (conv weight, folded BN affine). -/
structure ConvW where
  w : ℕ → ℕ → ℕ → ℕ → ℚ
  bnScale : ℕ → ℚ
  bnShift : ℕ → ℚ

/-- The `Conv` block: `Conv2d` (bias-free) + `BatchNorm2d` + Hardswish (or
identity when `act=False`). -/
structure Conv where
  conv : Conv2d
  bn : BatchNorm2d
  act : Bool

/-- `Conv.__init__(c1, c2, k, s, p, g, act)`. -/
def Conv.init (c1 c2 : ℕ) (k : KArg) (s : ℕ) (p : Option KArg) (g : ℕ) (act : Bool)
    (w : ConvW) : Conv :=
  { conv := { inC := c1, outC := c2, kh := k.pair.1, kw := k.pair.2,
              sh := s, sw := s, ph := (autopad k p).pair.1, pw := (autopad k p).pair.2,
              groups := g, weight := w.w, bias := none },
    bn := { features := c2, scale := w.bnScale, shift := w.bnShift },
    act := act }

/-- `Conv.forward(x) = act(bn(conv(x)))`. -/
def Conv.forward (m : Conv) (x : Tensor) : Tensor :=
  let y := m.bn.forward (m.conv.forward x)
  if m.act then y.pmap hardswish else y

end Common

namespace Common

/-- Learned parameters of a `Bottleneck` (its two `Conv` blocks). -/
structure BottleneckW where
  w1 : ConvW
  w2 : ConvW

/-- The `Bottleneck` block. -/
structure Bottleneck where
  cv1 : Conv
  cv2 : Conv
  add : Bool

/-- `Bottleneck.__init__(c1, c2, shortcut, g, e)`: hidden width
`c_ = int(c2 * e)`, `cv1 = Conv(c1, c_, 1, 1)`, `cv2 = Conv(c_, c2, 3, 1, g=g)`,
`add = shortcut and c1 == c2`. -/
def Bottleneck.init (c1 c2 : ℕ) (shortcut : Bool) (g : ℕ) (e : ℚ)
    (w : BottleneckW) : Bottleneck :=
  let cHidden := pyIntNat ((c2 : ℚ) * e)
  { cv1 := Conv.init c1 cHidden (.int 1) 1 none 1 true w.w1,
    cv2 := Conv.init cHidden c2 (.int 3) 1 none g true w.w2,
    add := shortcut && (c1 == c2) }

/-- `Bottleneck.forward`. -/
def Bottleneck.forward (m : Bottleneck) (x : Tensor) : Tensor :=
  if m.add then x.add (m.cv2.forward (m.cv1.forward x))
  else m.cv2.forward (m.cv1.forward x)

/-- Learned parameters of a `BottleneckCSP` block. -/
structure BottleneckCSPW where
  w1 : ConvW
  w2 : ℕ → ℕ → ℕ → ℕ → ℚ
  w3 : ℕ → ℕ → ℕ → ℕ → ℚ
  w4 : ConvW
  bnScale : ℕ → ℚ
  bnShift : ℕ → ℚ
  wm : ℕ → BottleneckW

/-- The `BottleneckCSP` block. -/
structure BottleneckCSP where
  cv1 : Conv
  cv2 : Conv2d
  cv3 : Conv2d
  cv4 : Conv
  bn : BatchNorm2d
  slope : ℚ
  m : List Bottleneck

/-- `BottleneckCSP.__init__(c1, c2, n, shortcut, g, e)`: hidden width
`c_ = int(c2 * e)`; `cv2`, `cv3` are raw bias-free 1×1 `nn.Conv2d`; `bn` runs
over the `2*c_` concatenated channels; the activation is `LeakyReLU(0.1)`;
`m` is `n` stacked `Bottleneck(c_, c_, shortcut, g, e=1.0)`. -/
def BottleneckCSP.init (c1 c2 n : ℕ) (shortcut : Bool) (g : ℕ) (e : ℚ)
    (w : BottleneckCSPW) : BottleneckCSP :=
  let cHidden := pyIntNat ((c2 : ℚ) * e)
  { cv1 := Conv.init c1 cHidden (.int 1) 1 none 1 true w.w1,
    cv2 := { inC := c1, outC := cHidden, kh := 1, kw := 1, sh := 1, sw := 1,
             ph := 0, pw := 0, groups := 1, weight := w.w2, bias := none },
    cv3 := { inC := cHidden, outC := cHidden, kh := 1, kw := 1, sh := 1, sw := 1,
             ph := 0, pw := 0, groups := 1, weight := w.w3, bias := none },
    cv4 := Conv.init (2 * cHidden) c2 (.int 1) 1 none 1 true w.w4,
    bn := { features := 2 * cHidden, scale := w.bnScale, shift := w.bnShift },
    slope := 1 / 10,
    m := (List.range n).map (fun i => Bottleneck.init cHidden cHidden shortcut g 1 (w.wm i)) }

/-- `nn.Sequential` of `Bottleneck` blocks. -/
def seqForward (ms : List Bottleneck) (x : Tensor) : Tensor :=
  ms.foldl (fun t b => b.forward t) x

/-- `BottleneckCSP.forward`:
`cv4(leakyReLU(bn(cat(cv3(m(cv1(x))), cv2(x), dim=1))))`. -/
def BottleneckCSP.forward (mm : BottleneckCSP) (x : Tensor) : Tensor :=
  let y1 := mm.cv3.forward (seqForward mm.m (mm.cv1.forward x))
  let y2 := mm.cv2.forward x
  mm.cv4.forward ((mm.bn.forward (cat2C y1 y2)).pmap (leakyRelu mm.slope))

/-- Greatest element of a list of rationals (pooling window contents). -/
def maxQ : List ℚ → ℚ
  | [] => 0
  | a :: rest => rest.foldl max a

/-- `nn.MaxPool2d(kernel_size=k, stride=s, padding=p)`: padding positions do
not contribute (equivalently, they are filled with negative infinity). -/
def maxPool2d (k s p : ℕ) (x : Tensor) : Tensor :=
  mk4 (x.dim 0) (x.dim 1) (convOut (x.dim 2) p k s) (convOut (x.dim 3) p k s)
    (fun a b i j =>
      maxQ (((List.range k).flatMap (fun u => (List.range k).map (fun v => (u, v)))).filterMap
        (fun uv =>
          let r : ℤ := (i * s + uv.1 : ℤ) - p
          let c : ℤ := (j * s + uv.2 : ℤ) - p
          if 0 ≤ r ∧ r < (x.dim 2 : ℤ) ∧ 0 ≤ c ∧ c < (x.dim 3 : ℤ) then
            some (x.at4 a b r.toNat c.toNat)
          else none)))

/-- Learned parameters of an `SPP` block. -/
structure SPPW where
  w1 : ConvW
  w2 : ConvW

/-- The `SPP` block. -/
structure SPP where
  cv1 : Conv
  cv2 : Conv
  ks : List ℕ

/-- `SPP.__init__(c1, c2, k)`: hidden width `c_ = c1 // 2`,
`cv1 = Conv(c1, c_, 1, 1)`, `cv2 = Conv(c_ * (len(k) + 1), c2, 1, 1)`,
pooling sizes `k` each with stride 1 and padding `x // 2`. -/
def SPP.init (c1 c2 : ℕ) (ks : List ℕ) (w : SPPW) : SPP :=
  let cHidden := c1 / 2
  { cv1 := Conv.init c1 cHidden (.int 1) 1 none 1 true w.w1,
    cv2 := Conv.init (cHidden * (ks.length + 1)) c2 (.int 1) 1 none 1 true w.w2,
    ks := ks }

/-- The concatenation inside `SPP.forward`: `cat([x] + [m(x) for m in self.m], 1)`
applied to `x = cv1(input)`. -/
def SPP.cat (m : SPP) (x : Tensor) : Tensor :=
  let x1 := m.cv1.forward x
  catListC (x1 :: m.ks.map (fun k => maxPool2d k 1 (k / 2) x1))

/-- `SPP.forward`. -/
def SPP.forward (m : SPP) (x : Tensor) : Tensor :=
  m.cv2.forward (m.cat x)

/-- The `Focus` block. -/
structure Focus where
  conv : Conv

/-- `Focus.__init__(c1, c2, k, s, p, g, act)`: a `Conv(c1 * 4, c2, k, s, p, g, act)`. -/
def Focus.init (c1 c2 : ℕ) (k : KArg) (s : ℕ) (p : Option KArg) (g : ℕ) (act : Bool)
    (w : ConvW) : Focus :=
  { conv := Conv.init (c1 * 4) c2 k s p g act w }

/-- The strided slice `x[..., a::2, b::2]` of a 4-axis tensor. -/
def sliceStride2 (x : Tensor) (a b : ℕ) : Tensor :=
  mk4 (x.dim 0) (x.dim 1) ((x.dim 2 - a + 1) / 2) ((x.dim 3 - b + 1) / 2)
    (fun n c i j => x.at4 n c (a + 2 * i) (b + 2 * j))

/-- The concatenation inside `Focus.forward`:
`cat([x[..., ::2, ::2], x[..., 1::2, ::2], x[..., ::2, 1::2], x[..., 1::2, 1::2]], 1)`. -/
def focusCat (x : Tensor) : Tensor :=
  catListC [sliceStride2 x 0 0, sliceStride2 x 1 0, sliceStride2 x 0 1, sliceStride2 x 1 1]

/-- `Focus.forward`. -/
def Focus.forward (m : Focus) (x : Tensor) : Tensor :=
  m.conv.forward (focusCat x)

/-- `Flatten.forward`: `x.view(x.size(0), -1)`. -/
def Flatten.forward (x : Tensor) : Tensor :=
  ⟨[x.dim 0, x.numel / x.dim 0], x.data⟩

/-- `nn.AdaptiveAvgPool2d(1)`: global mean over the spatial axes. -/
def adaptiveAvgPool1 (x : Tensor) : Tensor :=
  mk4 (x.dim 0) (x.dim 1) 1 1
    (fun a b _ _ =>
      ((Finset.range (x.dim 2)).sum fun i => (Finset.range (x.dim 3)).sum fun j => x.at4 a b i j)
        / ((x.dim 2 : ℚ) * (x.dim 3 : ℚ)))

/-- `nn.AdaptiveMaxPool2d(1)`: global maximum over the spatial axes. -/
def adaptiveMaxPool1 (x : Tensor) : Tensor :=
  mk4 (x.dim 0) (x.dim 1) 1 1
    (fun a b _ _ =>
      maxQ (((List.range (x.dim 2)).flatMap
        (fun i => (List.range (x.dim 3)).map (fun j => (i, j)))).map
          (fun ij => x.at4 a b ij.1 ij.2)))

/-- The `Classify` head. -/
structure Classify where
  conv : Conv2d

/-- `Classify.__init__(c1, c2, k, s, p, g)`: adaptive average pooling to 1×1,
then a bias-free `nn.Conv2d(c1, c2, k, s, autopad(k, p), groups=g)`, then flatten. -/
def Classify.init (c1 c2 : ℕ) (k : KArg) (s : ℕ) (p : Option KArg) (g : ℕ)
    (w : ℕ → ℕ → ℕ → ℕ → ℚ) : Classify :=
  { conv := { inC := c1, outC := c2, kh := k.pair.1, kw := k.pair.2, sh := s, sw := s,
              ph := (autopad k p).pair.1, pw := (autopad k p).pair.2,
              groups := g, weight := w, bias := none } }

/-- The argument of `Classify.forward`: a single tensor or a list. -/
inductive ClsInput where
  | single (t : Tensor)
  | multi (ts : List Tensor)

/-- `Classify.forward`: pool each input to 1×1, concatenate along channels
(`x if isinstance(x, list) else [x]`), convolve, flatten. -/
def Classify.forward (m : Classify) (x : ClsInput) : Tensor :=
  let xs := match x with | .single t => [t] | .multi ts => ts
  Flatten.forward (m.conv.forward (catListC (xs.map adaptiveAvgPool1)))

end Common

namespace Common

/-- Learned parameters of `ChannelAttention` (two bias-free 1×1 convs). -/
structure ChannelAttentionW where
  f1 : ℕ → ℕ → ℕ → ℕ → ℚ
  f2 : ℕ → ℕ → ℕ → ℕ → ℚ

/-- The `ChannelAttention` block. -/
structure ChannelAttention where
  fc1 : Conv2d
  fc2 : Conv2d

/-- `ChannelAttention.__init__(in_planes, ratio=16)`: the shared two-layer
bottleneck `Conv2d(in_planes, in_planes // ratio, 1, bias=False)` → ReLU →
`Conv2d(in_planes // ratio, in_planes, 1, bias=False)`. -/
def ChannelAttention.init (inPlanes r : ℕ) (w : ChannelAttentionW) : ChannelAttention :=
  { fc1 := { inC := inPlanes, outC := inPlanes / r, kh := 1, kw := 1, sh := 1, sw := 1,
             ph := 0, pw := 0, groups := 1, weight := w.f1, bias := none },
    fc2 := { inC := inPlanes / r, outC := inPlanes, kh := 1, kw := 1, sh := 1, sw := 1,
             ph := 0, pw := 0, groups := 1, weight := w.f2, bias := none } }

/-- The shared `fc` stack of `ChannelAttention`. -/
def ChannelAttention.fc (m : ChannelAttention) (t : Tensor) : Tensor :=
  m.fc2.forward ((m.fc1.forward t).pmap relu)

/-- `ChannelAttention.forward`: `sigmoid(fc(avg_pool(x)) + fc(max_pool(x)))`.
`sg` is the (real-valued, hence parametric) sigmoid. -/
def ChannelAttention.forward (sg : ℚ → ℚ) (m : ChannelAttention) (x : Tensor) : Tensor :=
  ((m.fc (adaptiveAvgPool1 x)).add (m.fc (adaptiveMaxPool1 x))).pmap sg

/-- Learned parameters of `SAM` (its two 1×1 convs, which carry biases). -/
structure SAMW where
  wamW : ℕ → ℕ → ℕ → ℕ → ℚ
  wamB : ℕ → ℚ
  hamW : ℕ → ℕ → ℕ → ℕ → ℚ
  hamB : ℕ → ℚ

/-- The `SAM` block. -/
structure SAM where
  width : ℕ
  height : ℕ
  wam : Conv2d
  ham : Conv2d

/-- `SAM.__init__(in_channels, width, height)`:
`wam = nn.Conv2d(width, in_channels, 1)`, `ham = nn.Conv2d(height, in_channels, 1)`. -/
def SAM.init (inChannels width height : ℕ) (w : SAMW) : SAM :=
  { width := width, height := height,
    wam := { inC := width, outC := inChannels, kh := 1, kw := 1, sh := 1, sw := 1,
             ph := 0, pw := 0, groups := 1, weight := w.wamW, bias := some w.wamB },
    ham := { inC := height, outC := inChannels, kh := 1, kw := 1, sh := 1, sw := 1,
             ph := 0, pw := 0, groups := 1, weight := w.hamW, bias := some w.hamB } }

/-- `xh = x.transpose(-2, -3)` in `SAM.forward`. -/
def SAM.xh (x : Tensor) : Tensor := x.transpose23

/-- `xw = x.transpose(-1, -3)` in `SAM.forward`. -/
def SAM.xw (x : Tensor) : Tensor := x.transpose13

/-- `yh = ham(xh)` in `SAM.forward`. -/
def SAM.yh (m : SAM) (x : Tensor) : Tensor := m.ham.forward (SAM.xh x)

/-- `yw = wam(xw)` in `SAM.forward`. -/
def SAM.yw (m : SAM) (x : Tensor) : Tensor := m.wam.forward (SAM.xw x)

/-- `SAM.forward`: `sigmoid(yw @ yh)`. -/
def SAM.forward (sg : ℚ → ℚ) (m : SAM) (x : Tensor) : Tensor :=
  ((m.yw x).matmul4 (m.yh x)).pmap sg

/-- Learned parameters of `DAM`. -/
structure DAMW where
  caw : ChannelAttentionW
  samw : SAMW

/-- The `DAM` block. -/
structure DAM where
  cam : ChannelAttention
  sam : SAM

/-- `DAM.__init__(in_planes, width, height)`. -/
def DAM.init (inPlanes width height : ℕ) (w : DAMW) : DAM :=
  { cam := ChannelAttention.init inPlanes 16 w.caw,
    sam := SAM.init inPlanes width height w.samw }

/-- `DAM.forward`: `x = cam(x) * x; y = sam(x) * x`. -/
def DAM.forward (sg : ℚ → ℚ) (m : DAM) (x : Tensor) : Tensor :=
  let x1 := (m.cam.forward sg x).bmul x
  (m.sam.forward sg x1).bmul x1

/-- `window_partition(x, window_size)` from `common.py`, line by line. -/
def window_partition (x : Tensor) (windowSize : ℕ) : Tensor :=
  let x1 := x.permute [0, 2, 3, 1]
  let b := x1.dim 0
  let h := x1.dim 1
  let w := x1.dim 2
  let c := x1.dim 3
  let x2 := x1.view [b, h / windowSize, windowSize, w / windowSize, windowSize, c]
  let x3 := (x2.permute [0, 1, 3, 2, 4, 5]).contiguous.viewNegFirst [windowSize, windowSize, c]
  x3.permute [0, 3, 1, 2]

/-- `window_reverse(windows, window_size, H, W)` from `common.py`, line by
line.  `B = int(windows.shape[0] / (H * W / window_size / window_size))` is a
Python float computation; it is modelled by exact rational arithmetic (the
float arithmetic is exact at every size the surrounding network can produce). -/
def window_reverse (windows : Tensor) (windowSize hDim wDim : ℕ) : Tensor :=
  let w1 := windows.permute [0, 2, 3, 1]
  let b : ℕ := (pyInt ((w1.dim 0 : ℚ) /
      ((hDim : ℚ) * (wDim : ℚ) / (windowSize : ℚ) / (windowSize : ℚ)))).toNat
  let x1 := w1.viewNegLast [b, hDim / windowSize, wDim / windowSize, windowSize, windowSize]
  let x2 := (x1.permute [0, 1, 3, 2, 4, 5]).contiguous.viewNegLast [b, hDim, wDim]
  x2.permute [0, 3, 1, 2]

/-- The `BDAM` block. -/
structure BDAM where
  width : ℕ
  height : ℕ
  windowSize : ℕ
  dam : DAM

/-- `BDAM.__init__(in_planes, width, height)`:
`window_size = min(width // 4, height // 4)` and a `DAM` over
`window_size × window_size` tiles. -/
def BDAM.init (inPlanes width height : ℕ) (w : DAMW) : BDAM :=
  let ws := min (width / 4) (height / 4)
  { width := width, height := height, windowSize := ws,
    dam := DAM.init inPlanes ws ws w }

/-- `BDAM.forward`: partition into windows, apply DAM, reverse the partition
using the constructed `height` and `width`. -/
def BDAM.forward (sg : ℚ → ℚ) (m : BDAM) (x : Tensor) : Tensor :=
  window_reverse (m.dam.forward sg (window_partition x m.windowSize))
    m.windowSize m.height m.width

end Common

namespace Common

theorem pyInt_natCast (n : ℕ) : pyInt (n : ℚ) = n := by
  unfold pyInt
  rw [if_neg (not_lt.mpr (by positivity)), Int.floor_natCast]

/-- `window_partition` written as an explicit composition once the input
shape `[B, C, p*ws, q*ws]` is known. -/
theorem window_partition_explicit (x : Tensor) {B C p q ws : ℕ}
    (hs : x.shape = [B, C, p * ws, q * ws]) (hws : 0 < ws) :
    window_partition x ws =
      ((((x.permute [0, 2, 3, 1]).view [B, p, ws, q, ws, C]).permute
        [0, 1, 3, 2, 4, 5]).viewNegFirst [ws, ws, C]).permute [0, 3, 1, 2] := by
  have hx1 : (x.permute [0, 2, 3, 1]).shape = [B, p * ws, q * ws, C] :=
    permute_0231_shape x hs
  simp only [window_partition, Tensor.contiguous, Tensor.dim, hx1]
  simp only [List.getD_cons_zero, List.getD_cons_succ]
  rw [Nat.mul_div_cancel p hws, Nat.mul_div_cancel q hws]

theorem window_partition_shape (x : Tensor) {B C p q ws : ℕ}
    (hs : x.shape = [B, C, p * ws, q * ws]) (hws : 0 < ws) (hC : 0 < C) :
    (window_partition x ws).shape = [B * p * q, C, ws, ws] := by
  rw [window_partition_explicit x hs hws]
  have h2 : ((x.permute [0, 2, 3, 1]).view [B, p, ws, q, ws, C]).shape
      = [B, p, ws, q, ws, C] := rfl
  have h3 : (((x.permute [0, 2, 3, 1]).view [B, p, ws, q, ws, C]).permute
      [0, 1, 3, 2, 4, 5]).shape = [B, p, q, ws, ws, C] :=
    permute_013245_shape _ h2
  have h4 : ((((x.permute [0, 2, 3, 1]).view [B, p, ws, q, ws, C]).permute
      [0, 1, 3, 2, 4, 5]).viewNegFirst [ws, ws, C]).shape = [B * p * q, ws, ws, C] := by
    show (_ / _ :: _ : List ℕ) = _
    have hnum : (((x.permute [0, 2, 3, 1]).view [B, p, ws, q, ws, C]).permute
        [0, 1, 3, 2, 4, 5]).numel = B * (p * (q * (ws * (ws * (C * 1))))) := by
      unfold Tensor.numel
      rw [h3]
      rfl
    rw [hnum]
    have he : B * (p * (q * (ws * (ws * (C * 1))))) = (B * p * q) * (ws * (ws * (C * 1))) := by
      ring
    have hK : 0 < ws * (ws * (C * 1)) := by positivity
    rw [show ([ws, ws, C] : List ℕ).prod = ws * (ws * (C * 1)) from rfl, he,
      Nat.mul_div_cancel _ hK]
  exact permute_0312_shape _ h4

theorem window_partition_data (x : Tensor) {B C p q ws : ℕ}
    (hs : x.shape = [B, C, p * ws, q * ws]) (hws : 0 < ws) (hC : 0 < C)
    {b th tw i j c : ℕ} (hb : b < B) (hth : th < p) (htw : tw < q)
    (hi : i < ws) (hj : j < ws) (hc : c < C) :
    (window_partition x ws).data
        (encIdx [B * p * q, C, ws, ws] [(b * p + th) * q + tw, c, i, j])
      = x.data (encIdx [B, C, p * ws, q * ws] [b, c, th * ws + i, tw * ws + j]) := by
  rw [window_partition_explicit x hs hws]
  have h2 : ((x.permute [0, 2, 3, 1]).view [B, p, ws, q, ws, C]).shape
      = [B, p, ws, q, ws, C] := rfl
  have h3 : (((x.permute [0, 2, 3, 1]).view [B, p, ws, q, ws, C]).permute
      [0, 1, 3, 2, 4, 5]).shape = [B, p, q, ws, ws, C] :=
    permute_013245_shape _ h2
  have h4 : ((((x.permute [0, 2, 3, 1]).view [B, p, ws, q, ws, C]).permute
      [0, 1, 3, 2, 4, 5]).viewNegFirst [ws, ws, C]).shape = [B * p * q, ws, ws, C] := by
    show (_ / _ :: _ : List ℕ) = _
    have hnum : (((x.permute [0, 2, 3, 1]).view [B, p, ws, q, ws, C]).permute
        [0, 1, 3, 2, 4, 5]).numel = B * (p * (q * (ws * (ws * (C * 1))))) := by
      unfold Tensor.numel
      rw [h3]
      rfl
    rw [hnum]
    have he : B * (p * (q * (ws * (ws * (C * 1))))) = (B * p * q) * (ws * (ws * (C * 1))) := by
      ring
    have hK : 0 < ws * (ws * (C * 1)) := by positivity
    rw [show ([ws, ws, C] : List ℕ).prod = ws * (ws * (C * 1)) from rfl, he,
      Nat.mul_div_cancel _ hK]
  have hbpq : (b * p + th) * q + tw < B * p * q :=
    mul_add_lt (mul_add_lt hb hth) htw
  rw [permute_0312_data _ h4 hbpq hc hi hj]
  have henc1 : encIdx [B * p * q, ws, ws, C] [(b * p + th) * q + tw, i, j, c]
      = encIdx [B, p, q, ws, ws, C] [b, th, tw, i, j, c] := by
    simp only [encIdx, List.prod_cons, List.prod_nil]
    ring
  show (((x.permute [0, 2, 3, 1]).view [B, p, ws, q, ws, C]).permute
      [0, 1, 3, 2, 4, 5]).data _ = _
  rw [henc1, permute_013245_data _ h2 hb hth htw hi hj hc]
  have henc2 : encIdx [B, p, ws, q, ws, C] [b, th, i, tw, j, c]
      = encIdx [B, p * ws, q * ws, C] [b, th * ws + i, tw * ws + j, c] := by
    simp only [encIdx, List.prod_cons, List.prod_nil]
    ring
  show (x.permute [0, 2, 3, 1]).data _ = _
  rw [henc2, permute_0231_data x hs hb (mul_add_lt hth hi) (mul_add_lt htw hj) hc]

end Common

namespace Common

/-- The Python float computation of the leading size `B` in `window_reverse`
recovers the original batch size on divisible shapes. -/
theorem window_reverse_B (N p q ws : ℕ) (hws : 0 < ws) (hp : 0 < p) (hq : 0 < q) :
    (pyInt (((N * p * q : ℕ) : ℚ) /
      (((p * ws : ℕ) : ℚ) * ((q * ws : ℕ) : ℚ) / ((ws : ℕ) : ℚ) / ((ws : ℕ) : ℚ)))).toNat
      = N := by
  have hws' : ((ws : ℕ) : ℚ) ≠ 0 := by positivity
  have hp' : ((p : ℕ) : ℚ) ≠ 0 := by positivity
  have hq' : ((q : ℕ) : ℚ) ≠ 0 := by positivity
  have hq1 : ((N * p * q : ℕ) : ℚ) /
      (((p * ws : ℕ) : ℚ) * ((q * ws : ℕ) : ℚ) / ((ws : ℕ) : ℚ) / ((ws : ℕ) : ℚ))
      = ((N : ℕ) : ℚ) := by
    push_cast
    field_simp
    ring
  rw [hq1, pyInt_natCast, Int.toNat_natCast]

/-- `window_reverse` written as an explicit composition once the argument
shape `[N*p*q, C, ws, ws]` and extents `(p*ws, q*ws)` are known. -/
theorem window_reverse_explicit (t : Tensor) {N C p q ws : ℕ}
    (hs : t.shape = [N * p * q, C, ws, ws]) (hws : 0 < ws) (hp : 0 < p) (hq : 0 < q) :
    window_reverse t ws (p * ws) (q * ws) =
      ((((t.permute [0, 2, 3, 1]).viewNegLast [N, p, q, ws, ws]).permute
        [0, 1, 3, 2, 4, 5]).viewNegLast [N, p * ws, q * ws]).permute [0, 3, 1, 2] := by
  have hw1 : (t.permute [0, 2, 3, 1]).shape = [N * p * q, ws, ws, C] :=
    permute_0231_shape t hs
  simp only [window_reverse, Tensor.contiguous, Tensor.dim, hw1]
  simp only [List.getD_cons_zero, List.getD_cons_succ]
  rw [window_reverse_B N p q ws hws hp hq,
    Nat.mul_div_cancel p hws, Nat.mul_div_cancel q hws]

theorem window_reverse_shape (t : Tensor) {N C p q ws : ℕ}
    (hs : t.shape = [N * p * q, C, ws, ws]) (hws : 0 < ws) (hC : 0 < C)
    (hN : 0 < N) (hp : 0 < p) (hq : 0 < q) :
    (window_reverse t ws (p * ws) (q * ws)).shape = [N, C, p * ws, q * ws] := by
  rw [window_reverse_explicit t hs hws hp hq]
  have hw1 : (t.permute [0, 2, 3, 1]).shape = [N * p * q, ws, ws, C] :=
    permute_0231_shape t hs
  have h1 : ((t.permute [0, 2, 3, 1]).viewNegLast [N, p, q, ws, ws]).shape
      = [N, p, q, ws, ws, C] := by
    show ([N, p, q, ws, ws] ++ [_ / _] : List ℕ) = _
    have hnum : (t.permute [0, 2, 3, 1]).numel = (N * p * q) * (ws * (ws * (C * 1))) := by
      unfold Tensor.numel
      rw [hw1]
      rfl
    rw [hnum]
    have he : (N * p * q) * (ws * (ws * (C * 1)))
        = (N * (p * (q * (ws * (ws * 1))))) * C := by ring
    have hK : 0 < N * (p * (q * (ws * (ws * 1)))) := by positivity
    rw [show ([N, p, q, ws, ws] : List ℕ).prod = N * (p * (q * (ws * (ws * 1)))) from rfl,
      he, Nat.mul_div_cancel_left _ hK]
    rfl
  have h2 : (((t.permute [0, 2, 3, 1]).viewNegLast [N, p, q, ws, ws]).permute
      [0, 1, 3, 2, 4, 5]).shape = [N, p, ws, q, ws, C] :=
    permute_013245_shape _ h1
  have h3 : ((((t.permute [0, 2, 3, 1]).viewNegLast [N, p, q, ws, ws]).permute
      [0, 1, 3, 2, 4, 5]).viewNegLast [N, p * ws, q * ws]).shape = [N, p * ws, q * ws, C] := by
    show ([N, p * ws, q * ws] ++ [_ / _] : List ℕ) = _
    have hnum : (((t.permute [0, 2, 3, 1]).viewNegLast [N, p, q, ws, ws]).permute
        [0, 1, 3, 2, 4, 5]).numel = N * (p * (ws * (q * (ws * (C * 1))))) := by
      unfold Tensor.numel
      rw [h2]
      rfl
    rw [hnum]
    have he : N * (p * (ws * (q * (ws * (C * 1)))))
        = (N * (p * ws * (q * ws * 1))) * C := by ring
    have hK : 0 < N * (p * ws * (q * ws * 1)) := by positivity
    rw [show ([N, p * ws, q * ws] : List ℕ).prod = N * (p * ws * (q * ws * 1)) from rfl,
      he, Nat.mul_div_cancel_left _ hK]
    rfl
  exact permute_0312_shape _ h3

theorem window_reverse_data (t : Tensor) {N C p q ws : ℕ}
    (hs : t.shape = [N * p * q, C, ws, ws]) (hws : 0 < ws) (hC : 0 < C)
    (hN : 0 < N) (hp : 0 < p) (hq : 0 < q)
    {b th tw i j c : ℕ} (hb : b < N) (hth : th < p) (htw : tw < q)
    (hi : i < ws) (hj : j < ws) (hc : c < C) :
    (window_reverse t ws (p * ws) (q * ws)).data
        (encIdx [N, C, p * ws, q * ws] [b, c, th * ws + i, tw * ws + j])
      = t.data (encIdx [N * p * q, C, ws, ws] [(b * p + th) * q + tw, c, i, j]) := by
  rw [window_reverse_explicit t hs hws hp hq]
  have hw1 : (t.permute [0, 2, 3, 1]).shape = [N * p * q, ws, ws, C] :=
    permute_0231_shape t hs
  have h1 : ((t.permute [0, 2, 3, 1]).viewNegLast [N, p, q, ws, ws]).shape
      = [N, p, q, ws, ws, C] := by
    show ([N, p, q, ws, ws] ++ [_ / _] : List ℕ) = _
    have hnum : (t.permute [0, 2, 3, 1]).numel = (N * p * q) * (ws * (ws * (C * 1))) := by
      unfold Tensor.numel
      rw [hw1]
      rfl
    rw [hnum]
    have he : (N * p * q) * (ws * (ws * (C * 1)))
        = (N * (p * (q * (ws * (ws * 1))))) * C := by ring
    have hK : 0 < N * (p * (q * (ws * (ws * 1)))) := by positivity
    rw [show ([N, p, q, ws, ws] : List ℕ).prod = N * (p * (q * (ws * (ws * 1)))) from rfl,
      he, Nat.mul_div_cancel_left _ hK]
    rfl
  have h3 : ((((t.permute [0, 2, 3, 1]).viewNegLast [N, p, q, ws, ws]).permute
      [0, 1, 3, 2, 4, 5]).viewNegLast [N, p * ws, q * ws]).shape = [N, p * ws, q * ws, C] := by
    have h2 : (((t.permute [0, 2, 3, 1]).viewNegLast [N, p, q, ws, ws]).permute
        [0, 1, 3, 2, 4, 5]).shape = [N, p, ws, q, ws, C] :=
      permute_013245_shape _ h1
    show ([N, p * ws, q * ws] ++ [_ / _] : List ℕ) = _
    have hnum : (((t.permute [0, 2, 3, 1]).viewNegLast [N, p, q, ws, ws]).permute
        [0, 1, 3, 2, 4, 5]).numel = N * (p * (ws * (q * (ws * (C * 1))))) := by
      unfold Tensor.numel
      rw [h2]
      rfl
    rw [hnum]
    have he : N * (p * (ws * (q * (ws * (C * 1)))))
        = (N * (p * ws * (q * ws * 1))) * C := by ring
    have hK : 0 < N * (p * ws * (q * ws * 1)) := by positivity
    rw [show ([N, p * ws, q * ws] : List ℕ).prod = N * (p * ws * (q * ws * 1)) from rfl,
      he, Nat.mul_div_cancel_left _ hK]
    rfl
  rw [permute_0312_data _ h3 hb hc (mul_add_lt hth hi) (mul_add_lt htw hj)]
  have henc2 : encIdx [N, p * ws, q * ws, C] [b, th * ws + i, tw * ws + j, c]
      = encIdx [N, p, ws, q, ws, C] [b, th, i, tw, j, c] := by
    simp only [encIdx, List.prod_cons, List.prod_nil]
    ring
  show (((t.permute [0, 2, 3, 1]).viewNegLast [N, p, q, ws, ws]).permute
      [0, 1, 3, 2, 4, 5]).data _ = _
  rw [henc2, permute_013245_data _ h1 hb hth hi htw hj hc]
  have henc1 : encIdx [N, p, q, ws, ws, C] [b, th, tw, i, j, c]
      = encIdx [N * p * q, ws, ws, C] [(b * p + th) * q + tw, i, j, c] := by
    simp only [encIdx, List.prod_cons, List.prod_nil]
    ring
  show (t.permute [0, 2, 3, 1]).data _ = _
  rw [henc1, permute_0231_data t hs (mul_add_lt (mul_add_lt hb hth) htw) hi hj hc]

end Common

namespace Common

/-- Claim C1: for every 4-axis tensor `x` of (valid, i.e. positive) shape
`(N, C, H, W)` and every `window_size ≥ 1` dividing both `H` and `W`,
`window_reverse(window_partition(x, window_size), window_size, H, W)` equals
`x` exactly, in both shape and element values. -/
theorem window_partition_reverse_exact (x : Tensor) (B C H W ws : ℕ)
    (hs : x.shape = [B, C, H, W]) (hws : 1 ≤ ws) (hH : ws ∣ H) (hW : ws ∣ W)
    (hB : 0 < B) (hC : 0 < C) (hHp : 0 < H) (hWp : 0 < W) :
    Teq (window_reverse (window_partition x ws) ws H W) x := by
  obtain ⟨p, rfl⟩ := hH
  obtain ⟨q, rfl⟩ := hW
  have hp0 : 0 < p := by
    rcases Nat.eq_zero_or_pos p with h0 | h0
    · subst h0; simp at hHp
    · exact h0
  have hq0 : 0 < q := by
    rcases Nat.eq_zero_or_pos q with h0 | h0
    · subst h0; simp at hWp
    · exact h0
  have hs' : x.shape = [B, C, p * ws, q * ws] := by
    rw [hs, mul_comm ws p, mul_comm ws q]
  rw [show ws * p = p * ws from mul_comm ws p, show ws * q = q * ws from mul_comm ws q]
  have hwp : (window_partition x ws).shape = [B * p * q, C, ws, ws] :=
    window_partition_shape x hs' hws hC
  constructor
  · rw [window_reverse_shape _ hwp hws hC hB hp0 hq0, hs']
  · intro f hf
    have hnum : (window_reverse (window_partition x ws) ws (p * ws) (q * ws)).numel
        = ([B, C, p * ws, q * ws] : List ℕ).prod := by
      unfold Tensor.numel
      rw [window_reverse_shape _ hwp hws hC hB hp0 hq0]
    rw [hnum] at hf
    obtain ⟨b, c, h, w, hdec⟩ : ∃ b c h w, decIdx [B, C, p * ws, q * ws] f = [b, c, h, w] :=
      ⟨_, _, _, _, rfl⟩
    have hfor := decIdx_forall_lt [B, C, p * ws, q * ws]
      (by
        intro d hd
        simp only [List.mem_cons, List.not_mem_nil, or_false] at hd
        rcases hd with rfl | rfl | rfl | rfl
        · exact hB
        · exact hC
        · positivity
        · positivity) f
    rw [hdec] at hfor
    rcases hfor with _ | ⟨hb, _ | ⟨hc, _ | ⟨hh, _ | ⟨hw, _⟩⟩⟩⟩
    have hfe : encIdx [B, C, p * ws, q * ws] [b, c, h, w] = f := by
      rw [← hdec]
      exact encIdx_decIdx _ _ hf
    rw [← hfe]
    have hth : h / ws < p := (Nat.div_lt_iff_lt_mul hws).mpr hh
    have htw : w / ws < q := (Nat.div_lt_iff_lt_mul hws).mpr hw
    have hi : h % ws < ws := Nat.mod_lt _ hws
    have hj : w % ws < ws := Nat.mod_lt _ hws
    have hh' : h = h / ws * ws + h % ws := by
      rw [mul_comm]
      exact (Nat.div_add_mod h ws).symm
    have hw' : w = w / ws * ws + w % ws := by
      rw [mul_comm]
      exact (Nat.div_add_mod w ws).symm
    rw [hh', hw',
      window_reverse_data (window_partition x ws) hwp hws hC hB hp0 hq0 hb hth htw hi hj hc,
      window_partition_data x hs' hws hC hb hth htw hi hj hc]

/-- Concrete instance of the window round-trip on a (1, 2, 2, 2) tensor with
window size 2. -/
theorem window_partition_reverse_exact_witness :
    Teq (window_reverse
        (window_partition ⟨[1, 2, 2, 2], fun i => (i : ℚ)⟩ 2) 2 2 2)
      ⟨[1, 2, 2, 2], fun i => (i : ℚ)⟩ :=
  window_partition_reverse_exact ⟨[1, 2, 2, 2], fun i => (i : ℚ)⟩ 1 2 2 2 2 rfl
    (by decide) (by decide) (by decide) (by decide) (by decide) (by decide) (by decide)

end Common

namespace Common

theorem dim0_of (x : Tensor) {a b c d : ℕ} (h : x.shape = [a, b, c, d]) : x.dim 0 = a := by
  rw [Tensor.dim, h]
  rfl

theorem dim1_of (x : Tensor) {a b c d : ℕ} (h : x.shape = [a, b, c, d]) : x.dim 1 = b := by
  rw [Tensor.dim, h]
  rfl

theorem dim2_of (x : Tensor) {a b c d : ℕ} (h : x.shape = [a, b, c, d]) : x.dim 2 = c := by
  rw [Tensor.dim, h]
  rfl

theorem dim3_of (x : Tensor) {a b c d : ℕ} (h : x.shape = [a, b, c, d]) : x.dim 3 = d := by
  rw [Tensor.dim, h]
  rfl

theorem convOut_one {n : ℕ} (hn : 0 < n) : convOut n 0 1 1 = n := by
  unfold convOut
  simp [Nat.div_one]
  omega

theorem conv2d_forward_shape (m : Conv2d) (x : Tensor) {n ci hh ww : ℕ}
    (h : x.shape = [n, ci, hh, ww]) :
    (m.forward x).shape
      = [n, m.outC, convOut hh m.ph m.kh m.sh, convOut ww m.pw m.kw m.sw] := by
  unfold Conv2d.forward
  rw [mk4_shape, dim0_of x h, dim2_of x h, dim3_of x h]

theorem bn_forward_shape (m : BatchNorm2d) (x : Tensor) {n ci hh ww : ℕ}
    (h : x.shape = [n, ci, hh, ww]) :
    (m.forward x).shape = [n, ci, hh, ww] := by
  unfold BatchNorm2d.forward
  rw [mk4_shape, dim0_of x h, dim1_of x h, dim2_of x h, dim3_of x h]

theorem pmap_shape (x : Tensor) (g : ℚ → ℚ) : (x.pmap g).shape = x.shape := rfl

theorem add_shape (x y : Tensor) : (x.add y).shape = x.shape := rfl

theorem Conv.forward_shape (m : Conv) (x : Tensor) {n ci hh ww : ℕ}
    (h : x.shape = [n, ci, hh, ww]) :
    (m.forward x).shape
      = [n, m.conv.outC, convOut hh m.conv.ph m.conv.kh m.conv.sh,
         convOut ww m.conv.pw m.conv.kw m.conv.sw] := by
  unfold Conv.forward
  have h2 := bn_forward_shape m.bn _ (conv2d_forward_shape m.conv x h)
  cases hact : m.act
  · simpa using h2
  · simpa [Tensor.pmap] using h2

theorem bmul_shape (x y : Tensor) {a b c d a2 b2 c2 d2 : ℕ}
    (hx : x.shape = [a, b, c, d]) (hy : y.shape = [a2, b2, c2, d2]) :
    (x.bmul y).shape = [max a a2, max b b2, max c c2, max d d2] := by
  unfold Tensor.bmul
  rw [mk4_shape, dim0_of x hx, dim1_of x hx, dim2_of x hx, dim3_of x hx,
    dim0_of y hy, dim1_of y hy, dim2_of y hy, dim3_of y hy]

theorem matmul4_shape (x y : Tensor) {a b c d a2 b2 c2 d2 : ℕ}
    (hx : x.shape = [a, b, c, d]) (hy : y.shape = [a2, b2, c2, d2]) :
    (x.matmul4 y).shape = [a, b, c, d2] := by
  unfold Tensor.matmul4
  rw [mk4_shape, dim0_of x hx, dim1_of x hx, dim2_of x hx, dim3_of y hy]

theorem transpose23_shape (x : Tensor) {a b c d : ℕ} (h : x.shape = [a, b, c, d]) :
    x.transpose23.shape = [a, c, b, d] := by
  unfold Tensor.transpose23
  rw [mk4_shape, dim0_of x h, dim1_of x h, dim2_of x h, dim3_of x h]

theorem transpose13_shape (x : Tensor) {a b c d : ℕ} (h : x.shape = [a, b, c, d]) :
    x.transpose13.shape = [a, d, c, b] := by
  unfold Tensor.transpose13
  rw [mk4_shape, dim0_of x h, dim1_of x h, dim2_of x h, dim3_of x h]

theorem adaptiveAvgPool1_shape (x : Tensor) {a b c d : ℕ} (h : x.shape = [a, b, c, d]) :
    (adaptiveAvgPool1 x).shape = [a, b, 1, 1] := by
  unfold adaptiveAvgPool1
  rw [mk4_shape, dim0_of x h, dim1_of x h]

theorem adaptiveMaxPool1_shape (x : Tensor) {a b c d : ℕ} (h : x.shape = [a, b, c, d]) :
    (adaptiveMaxPool1 x).shape = [a, b, 1, 1] := by
  unfold adaptiveMaxPool1
  rw [mk4_shape, dim0_of x h, dim1_of x h]

theorem conv1x1_forward_shape (m : Conv2d) (x : Tensor) {n ci hh ww : ℕ}
    (h : x.shape = [n, ci, hh, ww])
    (hk : m.kh = 1) (hk2 : m.kw = 1) (hs1 : m.sh = 1) (hs2 : m.sw = 1)
    (hp1 : m.ph = 0) (hp2 : m.pw = 0) (hh0 : 0 < hh) (hw0 : 0 < ww) :
    (m.forward x).shape = [n, m.outC, hh, ww] := by
  rw [conv2d_forward_shape m x h, hk, hk2, hs1, hs2, hp1, hp2,
    convOut_one hh0, convOut_one hw0]

theorem channelAttention_forward_shape (sg : ℚ → ℚ) (inP r : ℕ) (w : ChannelAttentionW)
    (x : Tensor) {n ci hh ww : ℕ} (h : x.shape = [n, ci, hh, ww]) :
    ((ChannelAttention.init inP r w).forward sg x).shape = [n, inP, 1, 1] := by
  unfold ChannelAttention.forward ChannelAttention.fc
  rw [pmap_shape, add_shape]
  have h1 : (((ChannelAttention.init inP r w).fc1.forward (adaptiveAvgPool1 x)).pmap
      relu).shape = [n, inP / r, 1, 1] := by
    rw [pmap_shape]
    exact conv1x1_forward_shape _ _ (adaptiveAvgPool1_shape x h) rfl rfl rfl rfl rfl rfl
      (by norm_num) (by norm_num)
  exact conv1x1_forward_shape _ _ h1 rfl rfl rfl rfl rfl rfl (by norm_num) (by norm_num)

theorem sam_forward_shape (sg : ℚ → ℚ) (inP width height : ℕ) (w : SAMW)
    (x : Tensor) {n ci hh ww : ℕ} (h : x.shape = [n, ci, hh, ww])
    (hci : 0 < ci) (hh0 : 0 < hh) (hw0 : 0 < ww) :
    ((SAM.init inP width height w).forward sg x).shape = [n, inP, hh, ww] := by
  unfold SAM.forward SAM.yw SAM.yh SAM.xw SAM.xh
  rw [pmap_shape]
  have hyw := conv2d_forward_shape (SAM.init inP width height w).wam _
    (transpose13_shape x h)
  have hyh := conv2d_forward_shape (SAM.init inP width height w).ham _
    (transpose23_shape x h)
  rw [matmul4_shape _ _ hyw hyh]
  show [n, inP, convOut hh 0 1 1, convOut ww 0 1 1] = _
  rw [convOut_one hh0, convOut_one hw0]

theorem dam_forward_shape (sg : ℚ → ℚ) (inP width height : ℕ) (w : DAMW)
    (x : Tensor) {n hh ww : ℕ} (h : x.shape = [n, inP, hh, ww])
    (hci : 0 < inP) (hh0 : 0 < hh) (hw0 : 0 < ww) :
    ((DAM.init inP width height w).forward sg x).shape = [n, inP, hh, ww] := by
  unfold DAM.forward DAM.init
  have hg : ((ChannelAttention.init inP 16 w.caw).forward sg x).shape = [n, inP, 1, 1] :=
    channelAttention_forward_shape sg inP 16 w.caw x h
  have hx1 : (((ChannelAttention.init inP 16 w.caw).forward sg x).bmul x).shape
      = [n, inP, hh, ww] := by
    rw [bmul_shape _ _ hg h, Nat.max_self, Nat.max_self,
      Nat.max_eq_right hh0, Nat.max_eq_right hw0]
  have hsam := sam_forward_shape sg inP width height w.samw _ hx1 hci hh0 hw0
  rw [bmul_shape _ _ hsam hx1, Nat.max_self, Nat.max_self, Nat.max_self, Nat.max_self]

end Common

namespace Common

/-- Raw shape of `window_reverse` on an arbitrary `[Bn, C, ws, ws]` argument
and arbitrary extents (no divisibility or matching assumed): the inferred
sizes are exactly the division expressions the code computes. -/
theorem window_reverse_shape_raw (t : Tensor) (Bn C ws hD wD b c1 c2 : ℕ)
    (hs : t.shape = [Bn, C, ws, ws])
    (hb : (pyInt ((Bn : ℚ) / ((hD : ℚ) * (wD : ℚ) / (ws : ℚ) / (ws : ℚ)))).toNat = b)
    (hc1 : Bn * (ws * (ws * (C * 1))) / (b * (hD / ws * (wD / ws * (ws * (ws * 1))))) = c1)
    (hc2 : b * (hD / ws * (ws * (wD / ws * (ws * (c1 * 1))))) / (b * (hD * (wD * 1))) = c2) :
    (window_reverse t ws hD wD).shape = [b, c2, hD, wD] := by
  have hw1 : (t.permute [0, 2, 3, 1]).shape = [Bn, ws, ws, C] := permute_0231_shape t hs
  simp only [window_reverse, Tensor.contiguous, Tensor.dim, hw1]
  simp only [List.getD_cons_zero, List.getD_cons_succ]
  rw [hb]
  have h1 : ((t.permute [0, 2, 3, 1]).viewNegLast [b, hD / ws, wD / ws, ws, ws]).shape
      = [b, hD / ws, wD / ws, ws, ws, c1] := by
    show ([b, hD / ws, wD / ws, ws, ws] ++ [_ / _] : List ℕ) = _
    have hnum : (t.permute [0, 2, 3, 1]).numel = Bn * (ws * (ws * (C * 1))) := by
      unfold Tensor.numel
      rw [hw1]
      rfl
    rw [hnum,
      show ([b, hD / ws, wD / ws, ws, ws] : List ℕ).prod
        = b * (hD / ws * (wD / ws * (ws * (ws * 1)))) from rfl, hc1]
    rfl
  have h3 : ((((t.permute [0, 2, 3, 1]).viewNegLast [b, hD / ws, wD / ws, ws, ws]).permute
      [0, 1, 3, 2, 4, 5]).viewNegLast [b, hD, wD]).shape = [b, hD, wD, c2] := by
    have h2 := permute_013245_shape _ h1
    show ([b, hD, wD] ++ [_ / _] : List ℕ) = _
    have hnum : (((t.permute [0, 2, 3, 1]).viewNegLast [b, hD / ws, wD / ws, ws, ws]).permute
        [0, 1, 3, 2, 4, 5]).numel = b * (hD / ws * (ws * (wD / ws * (ws * (c1 * 1))))) := by
      unfold Tensor.numel
      rw [h2]
      rfl
    rw [hnum, show ([b, hD, wD] : List ℕ).prod = b * (hD * (wD * 1)) from rfl, hc2]
    rfl
  exact permute_0312_shape _ h3

/-- Zero-filled weight bundle for a `Conv` block (for concrete instances). -/
def zeroConvW : ConvW := ⟨fun _ _ _ _ => 0, fun _ => 0, fun _ => 0⟩

/-- Zero-filled weight bundle for a `DAM`/`BDAM` block. -/
def zeroDAMW : DAMW :=
  ⟨⟨fun _ _ _ _ => 0, fun _ _ _ _ => 0⟩,
   ⟨fun _ _ _ _ => 0, fun _ => 0, fun _ _ _ _ => 0, fun _ => 0⟩⟩

/-- Claim C2 as stated is false: the claim quantifies over every input whose
`H` and `W` are divisible by the window size, but `window_reverse` is called
with the constructed `height` and `width`, so a divisible input of different
extent is not mapped back to its own shape.  Concretely,
`BDAM(in_planes=16, width=64, height=64)` has window size 16, which divides
the extents of a `(1, 16, 32, 32)` input, yet the output shape is
`(0, 0, 64, 64)`, not `(1, 16, 32, 32)` (the real code even fails: the
inferred batch size `int(4 / 16)` is 0). -/
theorem bdam_arbitrary_extent_counterexample :
    (BDAM.init 16 64 64 zeroDAMW).windowSize ∣ 32 ∧
    ((BDAM.init 16 64 64 zeroDAMW).forward id ⟨[1, 16, 32, 32], fun _ => 0⟩).shape
      ≠ [1, 16, 32, 32] := by
  constructor
  · decide
  · show (window_reverse
      ((DAM.init 16 16 16 zeroDAMW).forward id
        (window_partition ⟨[1, 16, 32, 32], fun _ => 0⟩ 16)) 16 64 64).shape
      ≠ [1, 16, 32, 32]
    have hwp : (window_partition ⟨[1, 16, 32, 32], fun _ => 0⟩ 16).shape
        = [4, 16, 16, 16] := by
      have h := @window_partition_shape (⟨[1, 16, 32, 32], fun _ => 0⟩ : Tensor)
        1 16 2 2 16 (by norm_num) (by norm_num) (by norm_num)
      norm_num at h
      exact h
    have hdam : ((DAM.init 16 16 16 zeroDAMW).forward id
        (window_partition ⟨[1, 16, 32, 32], fun _ => 0⟩ 16)).shape = [4, 16, 16, 16] :=
      dam_forward_shape id 16 16 16 zeroDAMW _ hwp (by norm_num) (by norm_num) (by norm_num)
    rw [window_reverse_shape_raw _ 4 16 16 64 64 0 0 0 hdam
      (by norm_num [pyInt]) (by norm_num) (by norm_num)]
    decide

/-- Claim C2 (amended): for `BDAM` constructed with `(in_planes, width,
height)`, the window size equals `min(width // 4, height // 4)`; and for
every input of shape `(N, in_planes, height, width)` — the constructed
extents — with `N`, `in_planes` positive and the window size positive and
dividing both `height` and `width`, the output shape equals the input shape.
(The original claim allowed any input extents divisible by the window size;
the counterexample shows `window_reverse` then uses the wrong extents.) -/
theorem bdam_window_size_and_shape (sg : ℚ → ℚ) (inP width height N : ℕ) (w : DAMW)
    (x : Tensor) (hs : x.shape = [N, inP, height, width])
    (hws : 0 < min (width / 4) (height / 4))
    (hdh : min (width / 4) (height / 4) ∣ height)
    (hdw : min (width / 4) (height / 4) ∣ width)
    (hN : 0 < N) (hP : 0 < inP) :
    (BDAM.init inP width height w).windowSize = min (width / 4) (height / 4) ∧
    ((BDAM.init inP width height w).forward sg x).shape = x.shape := by
  refine ⟨rfl, ?_⟩
  show (window_reverse
      ((DAM.init inP (min (width / 4) (height / 4)) (min (width / 4) (height / 4)) w).forward
        sg (window_partition x (min (width / 4) (height / 4))))
      (min (width / 4) (height / 4)) height width).shape = x.shape
  set ws := min (width / 4) (height / 4) with hwsdef
  obtain ⟨p, hp⟩ := hdh
  obtain ⟨q, hq⟩ := hdw
  have hh0 : 0 < height := by
    have h4 : 0 < height / 4 := lt_of_lt_of_le hws (min_le_right _ _)
    omega
  have hw0 : 0 < width := by
    have h4 : 0 < width / 4 := lt_of_lt_of_le hws (min_le_left _ _)
    omega
  have hp' : height = p * ws := by rw [hp]; ring
  have hq' : width = q * ws := by rw [hq]; ring
  have hp0 : 0 < p := by
    rcases Nat.eq_zero_or_pos p with h0 | h0
    · rw [h0, zero_mul] at hp'; omega
    · exact h0
  have hq0 : 0 < q := by
    rcases Nat.eq_zero_or_pos q with h0 | h0
    · rw [h0, zero_mul] at hq'; omega
    · exact h0
  have hs' : x.shape = [N, inP, p * ws, q * ws] := by rw [hs, ← hp', ← hq']
  have hwp := window_partition_shape x hs' hws hP
  have hdam := dam_forward_shape sg inP ws ws w _ hwp hP hws hws
  rw [hp', hq',
    window_reverse_shape _ hdam hws hP hN hp0 hq0, hs, hp', hq']

/-- Concrete instance of the amended C2: `BDAM(256, 64, 64)` on a
`(4, 256, 64, 64)` input uses window size 16 and preserves the shape. -/
theorem bdam_window_size_and_shape_witness :
    (BDAM.init 256 64 64 zeroDAMW).windowSize = 16 ∧
    ((BDAM.init 256 64 64 zeroDAMW).forward id ⟨[4, 256, 64, 64], fun _ => 0⟩).shape
      = [4, 256, 64, 64] := by
  have h := bdam_window_size_and_shape id 256 64 64 4 zeroDAMW
    ⟨[4, 256, 64, 64], fun _ => 0⟩ rfl (by decide) (by decide) (by decide)
    (by decide) (by decide)
  exact ⟨h.1, h.2⟩

end Common

namespace Common

/-- Zero-filled weight bundle for a `SAM` block. -/
def zeroSAMW : SAMW := ⟨fun _ _ _ _ => 0, fun _ => 0, fun _ _ _ _ => 0, fun _ => 0⟩

/-- Claim C3 as stated is false: on a `(1, 2, 3, 4)` input the
width-transposed view `x.transpose(-1, -3)` has shape `(1, 4, 3, 2)` —
`(N, W, H, C)` — not the claimed `(N, W, C, H) = (1, 4, 2, 3)`; accordingly
the width projection yields `(1, 5, 3, 2)` — `(N, in_channels, H, C)` — not
the claimed `(N, in_channels, C, H) = (1, 5, 2, 3)`. -/
theorem sam_width_shape_counterexample :
    (⟨[1, 2, 3, 4], fun _ => 0⟩ : Tensor).shape = [1, 2, 3, 4] ∧
    (SAM.xw ⟨[1, 2, 3, 4], fun _ => 0⟩).shape ≠ [1, 4, 2, 3] ∧
    ((SAM.init 5 4 3 zeroSAMW).yw ⟨[1, 2, 3, 4], fun _ => 0⟩).shape ≠ [1, 5, 2, 3] := by
  refine ⟨rfl, ?_, ?_⟩ <;> decide

/-- Claim C3 (amended): in `SAM.forward` on input `(N, C, H, W)` the
height-transposed view has shape `(N, H, C, W)` and the width-transposed view
has shape `(N, W, H, C)`; after the learned 1×1 projections
(`height → in_channels` on the height view, `width → in_channels` on the
width view) the tensors have shapes `(N, in_channels, C, W)` and
`(N, in_channels, H, C)` respectively, and the forward result is the matrix
product `yw @ yh` passed pointwise through the sigmoid. -/
theorem sam_axis_shapes (sg : ℚ → ℚ) (inC width height : ℕ) (w : SAMW)
    (x : Tensor) {n c h wd : ℕ} (hs : x.shape = [n, c, h, wd])
    (hc : 0 < c) (hh : 0 < h) (hw : 0 < wd) :
    (SAM.xh x).shape = [n, h, c, wd] ∧
    (SAM.xw x).shape = [n, wd, h, c] ∧
    ((SAM.init inC width height w).yh x).shape = [n, inC, c, wd] ∧
    ((SAM.init inC width height w).yw x).shape = [n, inC, h, c] ∧
    (SAM.init inC width height w).forward sg x
      = (((SAM.init inC width height w).yw x).matmul4
          ((SAM.init inC width height w).yh x)).pmap sg := by
  refine ⟨transpose23_shape x hs, transpose13_shape x hs, ?_, ?_, rfl⟩
  · exact conv1x1_forward_shape _ _ (transpose23_shape x hs) rfl rfl rfl rfl rfl rfl hc hw
  · exact conv1x1_forward_shape _ _ (transpose13_shape x hs) rfl rfl rfl rfl rfl rfl hh hc

/-- Concrete instance of the amended C3 on a `(1, 2, 3, 4)` input with
`SAM(in_channels=5, width=4, height=3)`. -/
theorem sam_axis_shapes_witness :
    (SAM.xh ⟨[1, 2, 3, 4], fun _ => 0⟩).shape = [1, 3, 2, 4] ∧
    (SAM.xw ⟨[1, 2, 3, 4], fun _ => 0⟩).shape = [1, 4, 3, 2] ∧
    ((SAM.init 5 4 3 zeroSAMW).yh ⟨[1, 2, 3, 4], fun _ => 0⟩).shape = [1, 5, 2, 4] ∧
    ((SAM.init 5 4 3 zeroSAMW).yw ⟨[1, 2, 3, 4], fun _ => 0⟩).shape = [1, 5, 3, 2] ∧
    (SAM.init 5 4 3 zeroSAMW).forward id ⟨[1, 2, 3, 4], fun _ => 0⟩
      = (((SAM.init 5 4 3 zeroSAMW).yw ⟨[1, 2, 3, 4], fun _ => 0⟩).matmul4
          ((SAM.init 5 4 3 zeroSAMW).yh ⟨[1, 2, 3, 4], fun _ => 0⟩)).pmap id :=
  sam_axis_shapes id 5 4 3 zeroSAMW ⟨[1, 2, 3, 4], fun _ => 0⟩ rfl
    (by decide) (by decide) (by decide)

end Common

namespace Common

/-- Claim C4: `BottleneckCSP.forward(x)` is exactly
`cv4(leakyReLU(bn(cat(cv3(bottlenecks(cv1(x))), cv2(x)))))`, where `cv2` and
`cv3` are bias-free 1×1 raw convolutions (no normalization or activation),
the concatenation puts the bottleneck path first, the activation is
leaky-ReLU with negative slope 0.1, and the stack has `n` bottlenecks each
built with expansion 1.0. -/
theorem csp_forward_structure (c1 c2 n : ℕ) (shortcut : Bool) (g : ℕ) (e : ℚ)
    (w : BottleneckCSPW) (x : Tensor) :
    (BottleneckCSP.init c1 c2 n shortcut g e w).forward x
      = (BottleneckCSP.init c1 c2 n shortcut g e w).cv4.forward
          (((BottleneckCSP.init c1 c2 n shortcut g e w).bn.forward
            (cat2C
              ((BottleneckCSP.init c1 c2 n shortcut g e w).cv3.forward
                (seqForward (BottleneckCSP.init c1 c2 n shortcut g e w).m
                  ((BottleneckCSP.init c1 c2 n shortcut g e w).cv1.forward x)))
              ((BottleneckCSP.init c1 c2 n shortcut g e w).cv2.forward x))).pmap
            (leakyRelu (1 / 10))) ∧
    (BottleneckCSP.init c1 c2 n shortcut g e w).cv2.bias = none ∧
    (BottleneckCSP.init c1 c2 n shortcut g e w).cv3.bias = none ∧
    (BottleneckCSP.init c1 c2 n shortcut g e w).cv2.kh = 1 ∧
    (BottleneckCSP.init c1 c2 n shortcut g e w).cv2.kw = 1 ∧
    (BottleneckCSP.init c1 c2 n shortcut g e w).cv3.kh = 1 ∧
    (BottleneckCSP.init c1 c2 n shortcut g e w).cv3.kw = 1 ∧
    (BottleneckCSP.init c1 c2 n shortcut g e w).slope = 1 / 10 ∧
    (BottleneckCSP.init c1 c2 n shortcut g e w).m.length = n ∧
    ∀ b ∈ (BottleneckCSP.init c1 c2 n shortcut g e w).m,
      ∃ wb, b = Bottleneck.init (pyIntNat ((c2 : ℚ) * e)) (pyIntNat ((c2 : ℚ) * e))
        shortcut g 1 wb := by
  refine ⟨rfl, rfl, rfl, rfl, rfl, rfl, rfl, rfl, ?_, ?_⟩
  · simp [BottleneckCSP.init]
  · intro b hb
    simp only [BottleneckCSP.init, List.mem_map, List.mem_range] at hb
    obtain ⟨i, _, hbi⟩ := hb
    exact ⟨w.wm i, hbi.symm⟩

/-- Zero-filled weight bundle for a `Bottleneck`. -/
def zeroBW : BottleneckW := ⟨zeroConvW, zeroConvW⟩

/-- Claim C5: if the shortcut flag is set and `c1 = c2` the bottleneck output
is `x + cv2(cv1(x))`; if `c1 ≠ c2` the output is `cv2(cv1(x))` for either
value of the flag — the shortcut is silently disabled, no error is raised. -/
theorem bottleneck_shortcut_policy (c1 c2 g : ℕ) (e : ℚ) (w : BottleneckW) (x : Tensor) :
    (∀ sc : Bool, sc = true → c1 = c2 →
      (Bottleneck.init c1 c2 sc g e w).forward x
        = x.add ((Bottleneck.init c1 c2 sc g e w).cv2.forward
            ((Bottleneck.init c1 c2 sc g e w).cv1.forward x))) ∧
    (c1 ≠ c2 → ∀ sc : Bool,
      (Bottleneck.init c1 c2 sc g e w).forward x
        = (Bottleneck.init c1 c2 sc g e w).cv2.forward
            ((Bottleneck.init c1 c2 sc g e w).cv1.forward x)) := by
  constructor
  · rintro sc rfl rfl
    simp only [Bottleneck.forward]
    have hadd : (Bottleneck.init c1 c1 true g e w).add = true := by
      simp [Bottleneck.init]
    rw [if_pos hadd]
  · intro hne sc
    simp only [Bottleneck.forward]
    have hadd : (Bottleneck.init c1 c2 sc g e w).add = false := by
      simp [Bottleneck.init, hne]
    rw [hadd]
    simp

/-- Concrete instances of C5: shortcut active at `c1 = c2 = 1`, silently
disabled at `c1 = 1 ≠ 2 = c2` with the flag still set. -/
theorem bottleneck_shortcut_policy_witness :
    (Bottleneck.init 1 1 true 1 (1 / 2) zeroBW).forward ⟨[1, 1, 1, 1], fun _ => 0⟩
      = (⟨[1, 1, 1, 1], fun _ => 0⟩ : Tensor).add
          ((Bottleneck.init 1 1 true 1 (1 / 2) zeroBW).cv2.forward
            ((Bottleneck.init 1 1 true 1 (1 / 2) zeroBW).cv1.forward
              ⟨[1, 1, 1, 1], fun _ => 0⟩)) ∧
    (Bottleneck.init 1 2 true 1 (1 / 2) zeroBW).forward ⟨[1, 1, 1, 1], fun _ => 0⟩
      = (Bottleneck.init 1 2 true 1 (1 / 2) zeroBW).cv2.forward
          ((Bottleneck.init 1 2 true 1 (1 / 2) zeroBW).cv1.forward
            ⟨[1, 1, 1, 1], fun _ => 0⟩) :=
  ⟨(bottleneck_shortcut_policy 1 1 1 (1 / 2) zeroBW ⟨[1, 1, 1, 1], fun _ => 0⟩).1
      true rfl rfl,
   (bottleneck_shortcut_policy 1 2 1 (1 / 2) zeroBW ⟨[1, 1, 1, 1], fun _ => 0⟩).2
      (by decide) true⟩

end Common

namespace Common

theorem Conv_k1_shape (c1 c2 : ℕ) (w : ConvW) (x : Tensor) {n ci hh ww : ℕ}
    (hx : x.shape = [n, ci, hh, ww]) (hh0 : 0 < hh) (hw0 : 0 < ww) :
    ((Conv.init c1 c2 (.int 1) 1 none 1 true w).forward x).shape = [n, c2, hh, ww] := by
  rw [Conv.forward_shape _ _ hx]
  show [n, c2, convOut hh 0 1 1, convOut ww 0 1 1] = _
  rw [convOut_one hh0, convOut_one hw0]

theorem convOut_3 {m : ℕ} (hm : 0 < m) : convOut m 1 3 1 = m := by
  unfold convOut
  simp [Nat.div_one]
  omega

theorem Conv_k3_shape (c1 c2 g : ℕ) (w : ConvW) (x : Tensor) {n ci hh ww : ℕ}
    (hx : x.shape = [n, ci, hh, ww]) (hh0 : 0 < hh) (hw0 : 0 < ww) :
    ((Conv.init c1 c2 (.int 3) 1 none g true w).forward x).shape = [n, c2, hh, ww] := by
  rw [Conv.forward_shape _ _ hx]
  show [n, c2, convOut hh 1 3 1, convOut ww 1 3 1] = _
  rw [convOut_3 hh0, convOut_3 hw0]

theorem cat2C_shape (x y : Tensor) {a b c d a2 b2 c2 d2 : ℕ}
    (hx : x.shape = [a, b, c, d]) (hy : y.shape = [a2, b2, c2, d2]) :
    (cat2C x y).shape = [a, b + b2, c, d] := by
  unfold cat2C
  rw [mk4_shape, dim0_of x hx, dim1_of x hx, dim1_of y hy, dim2_of x hx, dim3_of x hx]

theorem bottleneck_forward_shape (c1 c2 : ℕ) (sc : Bool) (g : ℕ) (e : ℚ)
    (w : BottleneckW) (x : Tensor) {n hh ww : ℕ}
    (hx : x.shape = [n, c1, hh, ww]) (hh0 : 0 < hh) (hw0 : 0 < ww) :
    ((Bottleneck.init c1 c2 sc g e w).forward x).shape = [n, c2, hh, ww] := by
  have hcv : ((Bottleneck.init c1 c2 sc g e w).cv2.forward
      ((Bottleneck.init c1 c2 sc g e w).cv1.forward x)).shape = [n, c2, hh, ww] := by
    have h1 : ((Bottleneck.init c1 c2 sc g e w).cv1.forward x).shape
        = [n, pyIntNat ((c2 : ℚ) * e), hh, ww] :=
      Conv_k1_shape c1 (pyIntNat ((c2 : ℚ) * e)) w.w1 x hx hh0 hw0
    exact Conv_k3_shape (pyIntNat ((c2 : ℚ) * e)) c2 g w.w2 _ h1 hh0 hw0
  simp only [Bottleneck.forward]
  cases hadd : (Bottleneck.init c1 c2 sc g e w).add
  · rw [if_neg (by simp [hadd])]
    exact hcv
  · rw [if_pos rfl]
    have hcc : c1 = c2 := by
      have h := hadd
      simp [Bottleneck.init] at h
      exact h.2
    rw [add_shape, hx, hcc]

theorem seqForward_shape (ms : List Bottleneck) (x : Tensor) {n c_ hh ww : ℕ}
    (hx : x.shape = [n, c_, hh, ww]) (hh0 : 0 < hh) (hw0 : 0 < ww)
    (hms : ∀ b ∈ ms, ∃ sc g e wb, b = Bottleneck.init c_ c_ sc g e wb) :
    (seqForward ms x).shape = [n, c_, hh, ww] := by
  induction ms generalizing x with
  | nil => exact hx
  | cons b bs ih =>
    obtain ⟨sc, g, e, wb, rfl⟩ := hms b (by simp)
    show (seqForward bs ((Bottleneck.init c_ c_ sc g e wb).forward x)).shape = _
    exact ih _ (bottleneck_forward_shape c_ c_ sc g e wb x hx hh0 hw0)
      (fun b hb => hms b (by simp [hb]))

/-- Claim C6 as stated is false: the hidden width is Python `int()`
truncation, not rounding.  With `c2 = 3` and `e = 0.5` the code gives
`int(1.5) = 1` while `round(1.5) = 2`. -/
theorem hidden_width_round_counterexample :
    (Bottleneck.init 3 3 true 1 (1 / 2) zeroBW).cv1.conv.outC
      ≠ (round ((3 : ℚ) * (1 / 2))).toNat := by
  have h1 : (Bottleneck.init 3 3 true 1 (1 / 2) zeroBW).cv1.conv.outC = 1 := by
    show pyIntNat (((3 : ℕ) : ℚ) * (1 / 2)) = 1
    rw [pyIntNat, pyInt, if_neg (by norm_num)]
    norm_num
  have h2 : (round ((3 : ℚ) * (1 / 2))).toNat = 2 := by
    have hr : round ((3 : ℚ) * (1 / 2)) = 2 := by norm_num [round_eq]
    rw [hr]
    decide
  rw [h1, h2]
  decide

/-- Claim C6 (amended): for every `c2` and expansion `e`, the hidden width of
`Bottleneck` (output channels of its first 1×1 `Conv`) and of
`BottleneckCSP` equal `int(c2 * e)` — Python truncation toward zero, not
rounding — and the concatenated tensor before the final projection has
`2 * int(c2 * e)` channels (matching `cv4`'s input width and `bn`'s feature
count). -/
theorem hidden_width_trunc (c1 c2 n : ℕ) (shortcut : Bool) (g : ℕ) (e : ℚ)
    (w : BottleneckW) (w2 : BottleneckCSPW) (x : Tensor) {N hh ww : ℕ}
    (hx : x.shape = [N, c1, hh, ww]) (hh0 : 0 < hh) (hw0 : 0 < ww) :
    (Bottleneck.init c1 c2 shortcut g e w).cv1.conv.outC = pyIntNat ((c2 : ℚ) * e) ∧
    (BottleneckCSP.init c1 c2 n shortcut g e w2).cv4.conv.inC
      = 2 * pyIntNat ((c2 : ℚ) * e) ∧
    (BottleneckCSP.init c1 c2 n shortcut g e w2).bn.features
      = 2 * pyIntNat ((c2 : ℚ) * e) ∧
    (cat2C
        ((BottleneckCSP.init c1 c2 n shortcut g e w2).cv3.forward
          (seqForward (BottleneckCSP.init c1 c2 n shortcut g e w2).m
            ((BottleneckCSP.init c1 c2 n shortcut g e w2).cv1.forward x)))
        ((BottleneckCSP.init c1 c2 n shortcut g e w2).cv2.forward x)).shape
      = [N, 2 * pyIntNat ((c2 : ℚ) * e), hh, ww] := by
  refine ⟨rfl, rfl, rfl, ?_⟩
  have h1 : ((BottleneckCSP.init c1 c2 n shortcut g e w2).cv1.forward x).shape
      = [N, pyIntNat ((c2 : ℚ) * e), hh, ww] :=
    Conv_k1_shape c1 (pyIntNat ((c2 : ℚ) * e)) w2.w1 x hx hh0 hw0
  have h2 : (seqForward (BottleneckCSP.init c1 c2 n shortcut g e w2).m
      ((BottleneckCSP.init c1 c2 n shortcut g e w2).cv1.forward x)).shape
      = [N, pyIntNat ((c2 : ℚ) * e), hh, ww] := by
    refine seqForward_shape _ _ h1 hh0 hw0 ?_
    intro b hb
    simp only [BottleneckCSP.init, List.mem_map, List.mem_range] at hb
    obtain ⟨i, _, hbi⟩ := hb
    exact ⟨shortcut, g, 1, w2.wm i, hbi.symm⟩
  have h3 : ((BottleneckCSP.init c1 c2 n shortcut g e w2).cv3.forward
      (seqForward (BottleneckCSP.init c1 c2 n shortcut g e w2).m
        ((BottleneckCSP.init c1 c2 n shortcut g e w2).cv1.forward x))).shape
      = [N, pyIntNat ((c2 : ℚ) * e), hh, ww] :=
    conv1x1_forward_shape _ _ h2 rfl rfl rfl rfl rfl rfl hh0 hw0
  have h4 : ((BottleneckCSP.init c1 c2 n shortcut g e w2).cv2.forward x).shape
      = [N, pyIntNat ((c2 : ℚ) * e), hh, ww] :=
    conv1x1_forward_shape _ _ hx rfl rfl rfl rfl rfl rfl hh0 hw0
  rw [cat2C_shape _ _ h3 h4, two_mul]

/-- Zero-filled weight bundle for a `BottleneckCSP`. -/
def zeroCSPW : BottleneckCSPW :=
  ⟨zeroConvW, fun _ _ _ _ => 0, fun _ _ _ _ => 0, zeroConvW,
   fun _ => 0, fun _ => 0, fun _ => zeroBW⟩

/-- Concrete instance of the amended C6 at `c2 = 3`, `e = 1/2` (hidden width
`int(1.5) = 1`, concatenated width 2). -/
theorem hidden_width_trunc_witness :
    (Bottleneck.init 3 3 true 1 (1 / 2) zeroBW).cv1.conv.outC
      = pyIntNat (((3 : ℕ) : ℚ) * (1 / 2)) ∧
    (cat2C
        ((BottleneckCSP.init 3 3 1 true 1 (1 / 2) zeroCSPW).cv3.forward
          (seqForward (BottleneckCSP.init 3 3 1 true 1 (1 / 2) zeroCSPW).m
            ((BottleneckCSP.init 3 3 1 true 1 (1 / 2) zeroCSPW).cv1.forward
              ⟨[1, 3, 2, 2], fun _ => 0⟩)))
        ((BottleneckCSP.init 3 3 1 true 1 (1 / 2) zeroCSPW).cv2.forward
          ⟨[1, 3, 2, 2], fun _ => 0⟩)).shape
      = [1, 2 * pyIntNat (((3 : ℕ) : ℚ) * (1 / 2)), 2, 2] := by
  have h := hidden_width_trunc 3 3 1 true 1 (1 / 2) zeroBW zeroCSPW
    ⟨[1, 3, 2, 2], fun _ => 0⟩ rfl (by decide) (by decide)
  exact ⟨h.1, h.2.2.2⟩

end Common

namespace Common

theorem sliceStride2_shape (x : Tensor) (a b : ℕ) {n c hh ww : ℕ}
    (hx : x.shape = [n, c, hh, ww]) :
    (sliceStride2 x a b).shape = [n, c, (hh - a + 1) / 2, (ww - b + 1) / 2] := by
  unfold sliceStride2
  rw [mk4_shape, dim0_of x hx, dim1_of x hx, dim2_of x hx, dim3_of x hx]

theorem sliceStride2_at4 (x : Tensor) (a b : ℕ) {n c hh ww : ℕ}
    (hx : x.shape = [n, c, hh, ww]) {i j k l : ℕ} (hi : i < n) (hj : j < c)
    (hk : k < (hh - a + 1) / 2) (hl : l < (ww - b + 1) / 2) :
    (sliceStride2 x a b).at4 i j k l = x.at4 i j (a + 2 * k) (b + 2 * l) := by
  unfold sliceStride2
  have h1 : i < x.dim 0 := by rw [dim0_of x hx]; exact hi
  have h2 : j < x.dim 1 := by rw [dim1_of x hx]; exact hj
  have h3 : k < (x.dim 2 - a + 1) / 2 := by rw [dim2_of x hx]; exact hk
  have h4 : l < (x.dim 3 - b + 1) / 2 := by rw [dim3_of x hx]; exact hl
  exact mk4_at4 _ _ _ _ _ h1 h2 h3 h4

theorem cat2C_at4 (x y : Tensor) {a b c d b2 : ℕ}
    (hx : x.shape = [a, b, c, d]) (hy : y.dim 1 = b2)
    {i j k l : ℕ} (hi : i < a) (hj : j < b + b2) (hk : k < c) (hl : l < d) :
    (cat2C x y).at4 i j k l = if j < b then x.at4 i j k l else y.at4 i (j - b) k l := by
  unfold cat2C
  have h1 : i < x.dim 0 := by rw [dim0_of x hx]; exact hi
  have h2 : j < x.dim 1 + y.dim 1 := by rw [dim1_of x hx, hy]; exact hj
  have h3 : k < x.dim 2 := by rw [dim2_of x hx]; exact hk
  have h4 : l < x.dim 3 := by rw [dim3_of x hx]; exact hl
  rw [mk4_at4 _ _ _ _ _ h1 h2 h3 h4, dim1_of x hx]

/-- Claim C7: on a `(N, C, H, W)` input with even `H` and `W`, the
concatenation inside `Focus` has shape `(N, 4C, H/2, W/2)` and stacks the
four stride-2 sub-grids at (row, col) offsets (0,0), (1,0), (0,1), (1,1)
along the channel axis, in exactly that order; `Focus.forward` applies its
`Conv` to that concatenation. -/
theorem focus_pixelgroup (x : Tensor) {N C H W : ℕ} (hs : x.shape = [N, C, H, W])
    (hH : 2 ∣ H) (hW : 2 ∣ W) (hH0 : 0 < H) (hW0 : 0 < W) :
    (focusCat x).shape = [N, 4 * C, H / 2, W / 2] ∧
    (∀ m : Focus, m.forward x = m.conv.forward (focusCat x)) ∧
    ∀ b c i j : ℕ, b < N → c < C → i < H / 2 → j < W / 2 →
      (focusCat x).at4 b c i j = x.at4 b c (2 * i) (2 * j) ∧
      (focusCat x).at4 b (C + c) i j = x.at4 b c (2 * i + 1) (2 * j) ∧
      (focusCat x).at4 b (2 * C + c) i j = x.at4 b c (2 * i) (2 * j + 1) ∧
      (focusCat x).at4 b (3 * C + c) i j = x.at4 b c (2 * i + 1) (2 * j + 1) := by
  have hsl : ∀ a b : ℕ, a ≤ 1 → b ≤ 1 →
      (sliceStride2 x a b).shape = [N, C, H / 2, W / 2] := by
    intro a b ha hb
    rw [sliceStride2_shape x a b hs,
      show (H - a + 1) / 2 = H / 2 from by omega,
      show (W - b + 1) / 2 = W / 2 from by omega]
  have hs00 := hsl 0 0 (by omega) (by omega)
  have hs10 := hsl 1 0 (by omega) (by omega)
  have hs01 := hsl 0 1 (by omega) (by omega)
  have hs11 := hsl 1 1 (by omega) (by omega)
  have hA1 : (cat2C (sliceStride2 x 0 0) (sliceStride2 x 1 0)).shape
      = [N, C + C, H / 2, W / 2] := cat2C_shape _ _ hs00 hs10
  have hA2 : (cat2C (cat2C (sliceStride2 x 0 0) (sliceStride2 x 1 0))
      (sliceStride2 x 0 1)).shape = [N, C + C + C, H / 2, W / 2] :=
    cat2C_shape _ _ hA1 hs01
  have hd10 : (sliceStride2 x 1 0).dim 1 = C := dim1_of _ hs10
  have hd01 : (sliceStride2 x 0 1).dim 1 = C := dim1_of _ hs01
  have hd11 : (sliceStride2 x 1 1).dim 1 = C := dim1_of _ hs11
  refine ⟨?_, fun m => rfl, ?_⟩
  · show (cat2C (cat2C (cat2C (sliceStride2 x 0 0) (sliceStride2 x 1 0))
      (sliceStride2 x 0 1)) (sliceStride2 x 1 1)).shape = _
    rw [cat2C_shape _ _ hA2 hs11, show C + C + C + C = 4 * C from by ring]
  · intro b c i j hb hc hi hj
    have hk0 : i < (H - 0 + 1) / 2 := by omega
    have hl0 : j < (W - 0 + 1) / 2 := by omega
    have hk1 : i < (H - 1 + 1) / 2 := by omega
    have hl1 : j < (W - 1 + 1) / 2 := by omega
    refine ⟨?_, ?_, ?_, ?_⟩
    · show (cat2C (cat2C (cat2C (sliceStride2 x 0 0) (sliceStride2 x 1 0))
        (sliceStride2 x 0 1)) (sliceStride2 x 1 1)).at4 b c i j = _
      rw [cat2C_at4 _ _ hA2 hd11 hb (by omega) hi hj, if_pos (by omega),
        cat2C_at4 _ _ hA1 hd01 hb (by omega) hi hj, if_pos (by omega),
        cat2C_at4 _ _ hs00 hd10 hb (by omega) hi hj, if_pos hc,
        sliceStride2_at4 x 0 0 hs hb hc hk0 hl0, zero_add, zero_add]
    · show (cat2C (cat2C (cat2C (sliceStride2 x 0 0) (sliceStride2 x 1 0))
        (sliceStride2 x 0 1)) (sliceStride2 x 1 1)).at4 b (C + c) i j = _
      rw [cat2C_at4 _ _ hA2 hd11 hb (by omega) hi hj, if_pos (by omega),
        cat2C_at4 _ _ hA1 hd01 hb (by omega) hi hj, if_pos (by omega),
        cat2C_at4 _ _ hs00 hd10 hb (by omega) hi hj, if_neg (by omega),
        show C + c - C = c from by omega,
        sliceStride2_at4 x 1 0 hs hb hc hk1 hl0, Nat.add_comm 1 (2 * i), zero_add]
    · show (cat2C (cat2C (cat2C (sliceStride2 x 0 0) (sliceStride2 x 1 0))
        (sliceStride2 x 0 1)) (sliceStride2 x 1 1)).at4 b (2 * C + c) i j = _
      rw [cat2C_at4 _ _ hA2 hd11 hb (by omega) hi hj, if_pos (by omega),
        cat2C_at4 _ _ hA1 hd01 hb (by omega) hi hj, if_neg (by omega),
        show 2 * C + c - (C + C) = c from by omega,
        sliceStride2_at4 x 0 1 hs hb hc hk0 hl1, zero_add, Nat.add_comm 1 (2 * j)]
    · show (cat2C (cat2C (cat2C (sliceStride2 x 0 0) (sliceStride2 x 1 0))
        (sliceStride2 x 0 1)) (sliceStride2 x 1 1)).at4 b (3 * C + c) i j = _
      rw [cat2C_at4 _ _ hA2 hd11 hb (by omega) hi hj, if_neg (by omega),
        show 3 * C + c - (C + C + C) = c from by omega,
        sliceStride2_at4 x 1 1 hs hb hc hk1 hl1, Nat.add_comm 1 (2 * i),
        Nat.add_comm 1 (2 * j)]

/-- Concrete instance of C7 on a `(1, 1, 2, 2)` input. -/
theorem focus_pixelgroup_witness :
    (focusCat ⟨[1, 1, 2, 2], fun i => (i : ℚ)⟩).shape = [1, 4 * 1, 2 / 2, 2 / 2] ∧
    (∀ m : Focus, m.forward ⟨[1, 1, 2, 2], fun i => (i : ℚ)⟩
      = m.conv.forward (focusCat ⟨[1, 1, 2, 2], fun i => (i : ℚ)⟩)) ∧
    ∀ b c i j : ℕ, b < 1 → c < 1 → i < 2 / 2 → j < 2 / 2 →
      (focusCat ⟨[1, 1, 2, 2], fun i => (i : ℚ)⟩).at4 b c i j
          = (⟨[1, 1, 2, 2], fun i => (i : ℚ)⟩ : Tensor).at4 b c (2 * i) (2 * j) ∧
      (focusCat ⟨[1, 1, 2, 2], fun i => (i : ℚ)⟩).at4 b (1 + c) i j
          = (⟨[1, 1, 2, 2], fun i => (i : ℚ)⟩ : Tensor).at4 b c (2 * i + 1) (2 * j) ∧
      (focusCat ⟨[1, 1, 2, 2], fun i => (i : ℚ)⟩).at4 b (2 * 1 + c) i j
          = (⟨[1, 1, 2, 2], fun i => (i : ℚ)⟩ : Tensor).at4 b c (2 * i) (2 * j + 1) ∧
      (focusCat ⟨[1, 1, 2, 2], fun i => (i : ℚ)⟩).at4 b (3 * 1 + c) i j
          = (⟨[1, 1, 2, 2], fun i => (i : ℚ)⟩ : Tensor).at4 b c (2 * i + 1) (2 * j + 1) :=
  focus_pixelgroup ⟨[1, 1, 2, 2], fun i => (i : ℚ)⟩ rfl (by decide) (by decide)
    (by decide) (by decide)

end Common

namespace Common

/-- Claim C8: with no explicit padding, `autopad` gives `k // 2` for an int
kernel size and per-axis `x // 2` for a list; a `Conv` therefore pads by
`k // 2` on both axes, and `ConvFusion(3, 16, k=3, s=2)` maps
`(1, 3, 640, 640)` to `(1, 16, 320, 320)` by the output-size formula
`floor((in + 2*padding - kernel) / stride) + 1`. -/
theorem autopad_and_conv_scenario :
    (∀ k : ℕ, autopad (.int k) none = .int (k / 2)) ∧
    (∀ ks : List ℕ, autopad (.list ks) none = .list (ks.map (fun v => v / 2))) ∧
    (∀ (c1 c2 k s g : ℕ) (act : Bool) (w : ConvW),
      (Conv.init c1 c2 (.int k) s none g act w).conv.ph = k / 2 ∧
      (Conv.init c1 c2 (.int k) s none g act w).conv.pw = k / 2) ∧
    (convOut 640 1 3 2 = (640 + 2 * 1 - 3) / 2 + 1) ∧
    ∀ (w : ConvW) (x : Tensor), x.shape = [1, 3, 640, 640] →
      ((Conv.init 3 16 (.int 3) 2 none 1 true w).forward x).shape = [1, 16, 320, 320] := by
  refine ⟨fun k => rfl, fun ks => rfl, fun c1 c2 k s g act w => ⟨rfl, rfl⟩, rfl, ?_⟩
  intro w x hx
  rw [Conv.forward_shape _ _ hx]
  show [1, 16, convOut 640 1 3 2, convOut 640 1 3 2] = _
  norm_num [convOut]

/-- Concrete instance of C8: the end-to-end `(1, 3, 640, 640)` scenario. -/
theorem autopad_and_conv_scenario_witness :
    ((Conv.init 3 16 (.int 3) 2 none 1 true zeroConvW).forward
      ⟨[1, 3, 640, 640], fun _ => 0⟩).shape = [1, 16, 320, 320] :=
  autopad_and_conv_scenario.2.2.2.2 zeroConvW ⟨[1, 3, 640, 640], fun _ => 0⟩ rfl

theorem maxPool2d_shape (k s p : ℕ) (x : Tensor) {n c hh ww : ℕ}
    (hx : x.shape = [n, c, hh, ww]) :
    (maxPool2d k s p x).shape = [n, c, convOut hh p k s, convOut ww p k s] := by
  unfold maxPool2d
  rw [mk4_shape, dim0_of x hx, dim1_of x hx, dim2_of x hx, dim3_of x hx]

/-- Claim C9: `SPP` first halves the channel count with a 1×1 `Conv`; with
pooling sizes `(5, 9, 13)` the concatenated channel count before the final
projection is `hidden * 4` (`hidden * (k_count + 1)`), and the spatial size
is unchanged from input to output. -/
theorem spp_structure (c1 c2 : ℕ) (w : SPPW) (x : Tensor) {N hh ww : ℕ}
    (hx : x.shape = [N, c1, hh, ww]) (hh0 : 0 < hh) (hw0 : 0 < ww) :
    (SPP.init c1 c2 [5, 9, 13] w).cv1.conv.outC = c1 / 2 ∧
    (SPP.init c1 c2 [5, 9, 13] w).cv1.conv.kh = 1 ∧
    (SPP.init c1 c2 [5, 9, 13] w).cv2.conv.inC = c1 / 2 * 4 ∧
    ((SPP.init c1 c2 [5, 9, 13] w).cat x).shape = [N, c1 / 2 * 4, hh, ww] ∧
    ((SPP.init c1 c2 [5, 9, 13] w).forward x).shape = [N, c2, hh, ww] := by
  have hx1 : ((SPP.init c1 c2 [5, 9, 13] w).cv1.forward x).shape = [N, c1 / 2, hh, ww] :=
    Conv_k1_shape c1 (c1 / 2) w.w1 x hx hh0 hw0
  have h5 : ∀ m : ℕ, 0 < m → convOut m 2 5 1 = m := by
    intro m hm
    unfold convOut
    simp [Nat.div_one]
    omega
  have h9 : ∀ m : ℕ, 0 < m → convOut m 4 9 1 = m := by
    intro m hm
    unfold convOut
    simp [Nat.div_one]
    omega
  have h13 : ∀ m : ℕ, 0 < m → convOut m 6 13 1 = m := by
    intro m hm
    unfold convOut
    simp [Nat.div_one]
    omega
  have hm5 : (maxPool2d 5 1 2 ((SPP.init c1 c2 [5, 9, 13] w).cv1.forward x)).shape
      = [N, c1 / 2, hh, ww] := by
    rw [maxPool2d_shape _ _ _ _ hx1, h5 hh hh0, h5 ww hw0]
  have hm9 : (maxPool2d 9 1 4 ((SPP.init c1 c2 [5, 9, 13] w).cv1.forward x)).shape
      = [N, c1 / 2, hh, ww] := by
    rw [maxPool2d_shape _ _ _ _ hx1, h9 hh hh0, h9 ww hw0]
  have hm13 : (maxPool2d 13 1 6 ((SPP.init c1 c2 [5, 9, 13] w).cv1.forward x)).shape
      = [N, c1 / 2, hh, ww] := by
    rw [maxPool2d_shape _ _ _ _ hx1, h13 hh hh0, h13 ww hw0]
  have hcat : ((SPP.init c1 c2 [5, 9, 13] w).cat x).shape = [N, c1 / 2 * 4, hh, ww] := by
    show (cat2C (cat2C (cat2C ((SPP.init c1 c2 [5, 9, 13] w).cv1.forward x)
        (maxPool2d 5 1 2 ((SPP.init c1 c2 [5, 9, 13] w).cv1.forward x)))
        (maxPool2d 9 1 4 ((SPP.init c1 c2 [5, 9, 13] w).cv1.forward x)))
        (maxPool2d 13 1 6 ((SPP.init c1 c2 [5, 9, 13] w).cv1.forward x))).shape = _
    rw [cat2C_shape _ _ (cat2C_shape _ _ (cat2C_shape _ _ hx1 hm5) hm9) hm13,
      show c1 / 2 + c1 / 2 + c1 / 2 + c1 / 2 = c1 / 2 * 4 from by ring]
  refine ⟨rfl, rfl, rfl, hcat, ?_⟩
  exact Conv_k1_shape (c1 / 2 * ([5, 9, 13].length + 1)) c2 w.w2 _ hcat hh0 hw0

/-- Concrete instance of C9 on a `(1, 2, 1, 1)` input. -/
theorem spp_structure_witness :
    (SPP.init 2 3 [5, 9, 13] ⟨zeroConvW, zeroConvW⟩).cv1.conv.outC = 2 / 2 ∧
    (SPP.init 2 3 [5, 9, 13] ⟨zeroConvW, zeroConvW⟩).cv1.conv.kh = 1 ∧
    (SPP.init 2 3 [5, 9, 13] ⟨zeroConvW, zeroConvW⟩).cv2.conv.inC = 2 / 2 * 4 ∧
    ((SPP.init 2 3 [5, 9, 13] ⟨zeroConvW, zeroConvW⟩).cat
      ⟨[1, 2, 1, 1], fun _ => 0⟩).shape = [1, 2 / 2 * 4, 1, 1] ∧
    ((SPP.init 2 3 [5, 9, 13] ⟨zeroConvW, zeroConvW⟩).forward
      ⟨[1, 2, 1, 1], fun _ => 0⟩).shape = [1, 3, 1, 1] :=
  spp_structure 2 3 ⟨zeroConvW, zeroConvW⟩ ⟨[1, 2, 1, 1], fun _ => 0⟩ rfl
    (by decide) (by decide)

theorem cat2C_shape_dim (x y : Tensor) {a b c d : ℕ} (hx : x.shape = [a, b, c, d]) :
    (cat2C x y).shape = [a, b + y.dim 1, c, d] := by
  unfold cat2C
  rw [mk4_shape, dim0_of x hx, dim1_of x hx, dim2_of x hx, dim3_of x hx]

theorem foldl_cat2C_shape (ts : List Tensor) (acc : Tensor) {N ca : ℕ}
    (hacc : acc.shape = [N, ca, 1, 1]) :
    (ts.foldl cat2C acc).shape = [N, ca + (ts.map (fun t => t.dim 1)).sum, 1, 1] := by
  induction ts generalizing acc ca with
  | nil => simpa using hacc
  | cons t ts ih =>
    show (ts.foldl cat2C (cat2C acc t)).shape = _
    rw [ih _ (cat2C_shape_dim acc t hacc), List.map_cons, List.sum_cons, ← add_assoc]

theorem flatten_shape (y : Tensor) {n c : ℕ} (hy : y.shape = [n, c, 1, 1]) (hn : 0 < n) :
    (Flatten.forward y).shape = [n, c] := by
  unfold Flatten.forward
  show [y.dim 0, y.numel / y.dim 0] = _
  have hnum : y.numel = n * (c * (1 * (1 * 1))) := by
    unfold Tensor.numel
    rw [hy]
    rfl
  rw [dim0_of y hy, hnum, show n * (c * (1 * (1 * 1))) = n * c from by ring,
    Nat.mul_div_cancel_left c hn]

/-- Claim C10: `Classify.forward` accepts a single tensor or a list (a single
tensor is treated as a one-element list); each input is adaptively
average-pooled to `(N, Ci, 1, 1)`, the pooled results are concatenated along
the channel axis, and the bias-free convolution followed by flatten yields
shape `(N, c2)` (with the default `k = 1`, `s = 1`). -/
theorem classify_head (c1 c2 : ℕ) (w : ℕ → ℕ → ℕ → ℕ → ℚ) :
    (Classify.init c1 c2 (.int 1) 1 none 1 w).conv.bias = none ∧
    (∀ t : Tensor, (Classify.init c1 c2 (.int 1) 1 none 1 w).forward (.single t)
      = (Classify.init c1 c2 (.int 1) 1 none 1 w).forward (.multi [t])) ∧
    (∀ (t : Tensor) (n ci hh ww : ℕ), t.shape = [n, ci, hh, ww] →
      (adaptiveAvgPool1 t).shape = [n, ci, 1, 1]) ∧
    ∀ (t0 : Tensor) (rest : List Tensor) (N : ℕ), 0 < N →
      (∀ t ∈ t0 :: rest, t.dim 0 = N) →
      (catListC ((t0 :: rest).map adaptiveAvgPool1)).shape
          = [N, ((t0 :: rest).map (fun t => t.dim 1)).sum, 1, 1] ∧
      ((Classify.init c1 c2 (.int 1) 1 none 1 w).forward (.multi (t0 :: rest))).shape
          = [N, c2] := by
  refine ⟨rfl, fun t => rfl, fun t n ci hh ww ht => adaptiveAvgPool1_shape t ht, ?_⟩
  intro t0 rest N hN hall
  have hd0 : t0.dim 0 = N := hall t0 (by simp)
  have hacc : (adaptiveAvgPool1 t0).shape = [N, t0.dim 1, 1, 1] := by
    show [t0.dim 0, t0.dim 1, 1, 1] = _
    rw [hd0]
  have hmm : ((rest.map adaptiveAvgPool1).map (fun t => t.dim 1))
      = rest.map (fun t => t.dim 1) := by
    rw [List.map_map]
    rfl
  have hcat : (catListC ((t0 :: rest).map adaptiveAvgPool1)).shape
      = [N, t0.dim 1 + (rest.map (fun t => t.dim 1)).sum, 1, 1] := by
    show ((rest.map adaptiveAvgPool1).foldl cat2C (adaptiveAvgPool1 t0)).shape = _
    rw [foldl_cat2C_shape _ _ hacc, hmm]
  constructor
  · rw [hcat, List.map_cons, List.sum_cons]
  · have hconv : ((Classify.init c1 c2 (.int 1) 1 none 1 w).conv.forward
        (catListC ((t0 :: rest).map adaptiveAvgPool1))).shape = [N, c2, 1, 1] :=
      conv1x1_forward_shape _ _ hcat rfl rfl rfl rfl rfl rfl (by norm_num) (by norm_num)
    show (Flatten.forward ((Classify.init c1 c2 (.int 1) 1 none 1 w).conv.forward
      (catListC ((t0 :: rest).map adaptiveAvgPool1)))).shape = _
    exact flatten_shape _ hconv hN

/-- Concrete instance of C10 on the list `[(2,3,2,2), (2,2,3,3)]` with
`Classify(5, 7)`. -/
theorem classify_head_witness :
    (catListC (([⟨[2, 3, 2, 2], fun _ => 0⟩, ⟨[2, 2, 3, 3], fun _ => 0⟩] :
        List Tensor).map adaptiveAvgPool1)).shape
      = [2, (([⟨[2, 3, 2, 2], fun _ => 0⟩, ⟨[2, 2, 3, 3], fun _ => 0⟩] :
          List Tensor).map (fun t => t.dim 1)).sum, 1, 1] ∧
    ((Classify.init 5 7 (.int 1) 1 none 1 (fun _ _ _ _ => 0)).forward
      (.multi [⟨[2, 3, 2, 2], fun _ => 0⟩, ⟨[2, 2, 3, 3], fun _ => 0⟩])).shape
      = [2, 7] :=
  (classify_head 5 7 (fun _ _ _ _ => 0)).2.2.2
    ⟨[2, 3, 2, 2], fun _ => 0⟩ [⟨[2, 2, 3, 3], fun _ => 0⟩] 2 (by decide)
    (by
      intro t ht
      simp only [List.mem_cons, List.not_mem_nil, or_false] at ht
      rcases ht with rfl | rfl <;> rfl)

end Common
